import Mathlib

/-!
Verification of conda-forge-feedstock-check-solvable against its
natural-language specification.

The development shallowly embeds the Python sources
(`check_solvable.py`, `utils.py`, `mamba_solver.py`, `rattler_solver.py`,
`virtual_packages.py`).  Python strings are embedded as `List Char`
(`PyStr`) so that Python's `str.split`, `str.strip`, `str.startswith`
and concatenation have exact executable counterparts; Python `set`s of
spec strings are embedded as `Finset String`.  External collaborators
(the conda `MatchSpec` parser, the network-backed run-exports sources,
the pluggable solver backends, conda-build's `get_pin_from_build` and
`apply_pin_expressions`) are passed in as explicit parameters or
modelled definitions, each marked as such in its doc string.
-/

/-! ### Python string primitives -/

/-- Embedding of a Python `str` as its character list. -/
abbrev PyStr := List Char

/-- The character list of a Lean string literal, for readable statements. -/
def pystr (s : String) : PyStr := s.data

/-- Python `str.split(sep)` for a one-character separator `sep`
(non-merging: `"a,,b".split(",") == ["a","","b"]`, `"".split(",") == [""]`). -/
def pySplit (sep : Char) (s : PyStr) : List PyStr := s.splitOn sep

/-- Python `sep.join(parts)` for a one-character separator. -/
def pyJoin (sep : Char) (parts : List PyStr) : PyStr := [sep].intercalate parts

/-- Python `str.strip()` restricted to the space character (the only
whitespace occurring in conda spec strings). -/
def pyStrip (s : PyStr) : PyStr :=
  ((s.dropWhile (· = ' ')).reverse.dropWhile (· = ' ')).reverse

/-- Python `str.startswith(prefix)`. -/
def pyStartswith (pre : PyStr) (s : PyStr) : Bool := pre.isPrefixOf s

/-- Python `sub in s` (substring containment). -/
def pyContains (sub : PyStr) (s : PyStr) : Bool := decide (sub <:+: s)

/-! ### Spec normalizer (`utils.py`, lines 37-39 and 209-262) -/

/-- `REQ_START_NOSTAR` from `utils.py`: version sub-clauses starting with one
of these comparison operators are not munged from `1.1` to `1.1.*`. -/
def REQ_START_NOSTAR : List PyStr :=
  [pystr "!=", pystr "==", pystr ">", pystr "<", pystr ">=", pystr "<=", pystr "~="]

/-- The body of the inner loop of `_munge_req_star` (`utils.py` lines 219-229):
strip whitespace, then keep the sub-clause if it starts with a comparison
operator or contains `*`; otherwise drop a leading `=` and append `.*`. -/
def mungeStarPiece (pp0 : PyStr) : PyStr :=
  let pp := pyStrip pp0
  if REQ_START_NOSTAR.any (fun v => pyStartswith v pp) || '*' ∈ pp then
    pp
  else
    (if pyStartswith (pystr "=") pp then pp.tail else pp) ++ pystr ".*"

/-- `_munge_req_star` from `utils.py` lines 209-240.  The source splits on
`,`, then on `|`, munges each piece, and re-joins re-inserting the
separators on the way out; that interleaving is exactly `intercalate`. -/
def _munge_req_star (req : PyStr) : PyStr :=
  pyJoin ',' ((pySplit ',' req).map (fun p =>
    pyJoin '|' ((pySplit '|' p).map mungeStarPiece)))

/-- Modelled from the spec: the conda `MatchSpec` parser (an external
collaborator, section 2 "Spec Normalizer" input parsing and section 3
"Spec" of the spec).  For a conda-build-form spec string
`"name [version [build]]"` made of space-separated non-empty tokens it
returns the raw name, version and build fields verbatim; other shapes are
out of the modelled domain (`none`). -/
def parseMatchSpec (s : PyStr) : Option (PyStr × Option PyStr × Option PyStr) :=
  match pySplit ' ' s with
  | [n] => if n ≠ [] then some (n, none, none) else none
  | [n, v] => if n ≠ [] && v ≠ [] then some (n, some v, none) else none
  | [n, v, b] => if n ≠ [] && v ≠ [] && b ≠ [] then some (n, some v, some b) else none
  | _ => none

/-- `convert_spec_to_conda_build` from `utils.py` lines 243-262, over the
name/version/build fields produced by the (modelled) `MatchSpec` parse:
raise (`none`) when a build is present without a version, munge the
version with `_munge_req_star`, and join the parts with spaces. -/
def convertParts (name : PyStr) (version : Option PyStr) (build : Option PyStr) :
    Option PyStr :=
  if build.isSome && version.isNone then
    none
  else
    some (pyJoin ' '
      ([name] ++ (version.map _munge_req_star).toList ++ build.toList))

/-- `convert_spec_to_conda_build` on a raw spec string: parse with the
modelled `MatchSpec`, then normalize.  `none` models the exceptions
(unparseable spec, build without version). -/
def convert_spec_to_conda_build (myspec : String) : Option String :=
  match parseMatchSpec (pystr myspec) with
  | none => none
  | some (n, v, b) => (convertParts n v b).map (fun cs => String.mk cs)

/-! ### Claims C5 and C6: spec normalization -/

/-- The per-sub-clause transformation exactly as claim C5 words it: append
`.*` unless the sub-clause already starts with a comparison operator or
contains `*`. -/
def claimStarPiece (pp : PyStr) : PyStr :=
  if REQ_START_NOSTAR.any (fun v => pyStartswith v pp) || '*' ∈ pp then pp
  else pp ++ pystr ".*"

/-! ### Run exports data model (`utils.py` lines 24-30) -/

/-- The five run-export buckets of `DEFAULT_RUN_EXPORTS`. -/
inductive Bucket
  | weak
  | strong
  | noarch
  | weak_constrains
  | strong_constrains
deriving DecidableEq

def Bucket.all : List Bucket :=
  [.weak, .strong, .noarch, .weak_constrains, .strong_constrains]

/-- The JSON key of a bucket, as in `DEFAULT_RUN_EXPORTS`. -/
def Bucket.keyName : Bucket → String
  | .weak => "weak"
  | .strong => "strong"
  | .noarch => "noarch"
  | .weak_constrains => "weak_constrains"
  | .strong_constrains => "strong_constrains"

/-- A run-exports record: the five named constraint buckets, each a set of
spec strings (`DEFAULT_RUN_EXPORTS` in `utils.py`). -/
@[ext]
structure RunExports where
  weak : Finset String
  strong : Finset String
  noarch : Finset String
  weak_constrains : Finset String
  strong_constrains : Finset String
deriving DecidableEq

/-- `DEFAULT_RUN_EXPORTS`: every bucket empty. -/
def DEFAULT_RUN_EXPORTS : RunExports := ⟨∅, ∅, ∅, ∅, ∅⟩

def RunExports.get (rx : RunExports) : Bucket → Finset String
  | .weak => rx.weak
  | .strong => rx.strong
  | .noarch => rx.noarch
  | .weak_constrains => rx.weak_constrains
  | .strong_constrains => rx.strong_constrains

/-- `run_exports[k].update(spec_list)`: union a list of specs into one
bucket. -/
def RunExports.updateBucket (rx : RunExports) (b : Bucket) (xs : List String) :
    RunExports :=
  match b with
  | .weak => { rx with weak := rx.weak ∪ xs.toFinset }
  | .strong => { rx with strong := rx.strong ∪ xs.toFinset }
  | .noarch => { rx with noarch := rx.noarch ∪ xs.toFinset }
  | .weak_constrains => { rx with weak_constrains := rx.weak_constrains ∪ xs.toFinset }
  | .strong_constrains =>
      { rx with strong_constrains := rx.strong_constrains ∪ xs.toFinset }

/-- `k in DEFAULT_RUN_EXPORTS`: recognize a bucket key. -/
def bucketOfKey (k : String) : Option Bucket :=
  if k = "weak" then some .weak
  else if k = "strong" then some .strong
  else if k = "noarch" then some .noarch
  else if k = "weak_constrains" then some .weak_constrains
  else if k = "strong_constrains" then some .strong_constrains
  else none

/-- Raw run-exports data as found in artifact metadata: a single string, a
flat list, or a mapping of bucket key to list of specs. -/
inductive RawRunExports
  | str (s : String)
  | list (l : List String)
  | map (entries : List (String × List String))

/-- `_convert_run_exports_to_canonical_form` from `utils.py` lines 424-445:
`None` gives the all-empty record, a single string becomes one `weak`
entry, a non-mapping (list) becomes `weak`, and mapping entries are merged
into the recognized buckets while unrecognized keys are logged and
ignored. -/
def _convert_run_exports_to_canonical_form (rx : Option RawRunExports) : RunExports :=
  match rx with
  | none => DEFAULT_RUN_EXPORTS
  | some raw =>
    let entries : List (String × List String) :=
      match raw with
      | .str s => [("weak", [s])]
      | .list l => [("weak", l)]
      | .map es => es
    entries.foldl (fun acc e =>
      match bucketOfKey e.1 with
      | some b => acc.updateBucket b e.2
      | none => acc) DEFAULT_RUN_EXPORTS

/-! ### Claim C4: run-exports source fallback chain (`utils.py` lines 340-495) -/

/-- Python `s.rsplit(sep, 1)` unpacked into exactly two parts; `none` models
the `ValueError` when the separator does not occur. -/
def pyRsplitOnce (sep : Char) (s : String) : Option (String × String) :=
  let parts := pySplit sep (pystr s)
  match parts.getLast? with
  | none => none
  | some last =>
    if parts.length ≥ 2 then
      some (String.mk (pyJoin sep parts.dropLast), String.mk last)
    else
      none

/-- The per-package record of the channel's aggregate channel data: the
`run_exports` field maps each version with run exports (modelled as the
list of such versions); `none` models a record without that field. -/
structure PkgChannelData where
  run_exports : Option (List String)

/-- The channel's aggregate channel data (`download_channeldata` result):
`none` for `packages` models data without a `packages` key (unavailable or
inconclusive). -/
structure ChannelData where
  packages : Option (List (String × PkgChannelData))

/-- `_has_run_exports_in_channel_data` from `utils.py` lines 371-388: parse
`name` and `ver` off the artifact filename, then answer `False` only when
the channel data positively knows the package and has a `run_exports`
table without this version; every missing key answers `True`.  `none`
models the exception on an unparseable filename. -/
def _has_run_exports_in_channel_data (cd : ChannelData) (filename : String) :
    Option Bool :=
  match pyRsplitOnce '-' filename with
  | none => none
  | some (name_ver, _) =>
    match pyRsplitOnce '-' name_ver with
    | none => none
    | some (name, ver) =>
      match cd.packages with
      | none => some true
      | some pkgs =>
        match pkgs.lookup name with
        | none => some true
        | some pcd =>
          match pcd.run_exports with
          | none => some true
          | some vers => some (decide (ver ∈ vers))

/-- The three run-export sources of `get_run_exports`, in order. -/
inductive RunExportSource
  | runExportsJson
  | artifactInfo
  | download
deriving DecidableEq

/-- `get_run_exports` from `utils.py` lines 448-495, with the three
network-backed sources supplied as oracles (`src1` = the CEP-12
`run_exports.json` lookup, `src2` = the conda-forge-metadata artifact
lookup, `src3` = the artifact download); each oracle value is what that
source would return, `none` meaning failure/absence.  Besides the
canonicalized result the embedding returns the list of sources the code
consulted.  `none` models the exception from an unparseable filename in
the channel-data check. -/
def get_run_exports (src1 : Option RawRunExports) (cd : ChannelData)
    (filename : String) (src2 : Option RawRunExports) (src3 : Option RawRunExports) :
    Option (RunExports × List RunExportSource) :=
  match src1 with
  | some rx =>
    some (_convert_run_exports_to_canonical_form (some rx), [.runExportsJson])
  | none =>
    match _has_run_exports_in_channel_data cd filename with
    | none => none
    | some true =>
      match src2 with
      | some rx =>
        some (_convert_run_exports_to_canonical_form (some rx),
          [.runExportsJson, .artifactInfo])
      | none =>
        some (_convert_run_exports_to_canonical_form src3,
          [.runExportsJson, .artifactInfo, .download])
    | some false =>
      some (_convert_run_exports_to_canonical_form none, [.runExportsJson])

/-! ### Claim C3: run-export aggregation after a solve
(`mamba_solver.py` lines 267-295, `rattler_solver.py` lines 100-125) -/

/-- `MatchSpec(s).get_exact_value("name")` for a conda-build-form spec
string: the first space-separated token (the package name). -/
def specName (s : String) : String := String.mk ((pySplit ' ' (pystr s)).headI)

/-- One element of the `to_link` list: the artifact's channel and filename
(the arguments of the cached `get_run_export` lookup) and the package name
read from its repodata shard. -/
structure LinkTuple where
  channel : String
  filename : String
  name : String

/-- Bucket-wise union of two run-export records. -/
def RunExports.union (a b : RunExports) : RunExports :=
  ⟨a.weak ∪ b.weak, a.strong ∪ b.strong, a.noarch ∪ b.noarch,
    a.weak_constrains ∪ b.weak_constrains,
    a.strong_constrains ∪ b.strong_constrains⟩

/-- `rx[key] = {v for v in rx[key] if v not in ign_rex}`: drop every export
entry that is literally a member of the ignored set. -/
def RunExports.filterEntries (rx : RunExports) (ign : Finset String) : RunExports :=
  ⟨rx.weak.filter (· ∉ ign), rx.strong.filter (· ∉ ign),
    rx.noarch.filter (· ∉ ign), rx.weak_constrains.filter (· ∉ ign),
    rx.strong_constrains.filter (· ∉ ign)⟩

/-- `MambaSolver._get_run_exports` (`mamba_solver.py` lines 267-295; the
rattler variant at `rattler_solver.py` lines 100-125 has the same
structure): for every solved package whose name is among the original
specs' names and not among the `ignore_run_exports_from` names, fetch its
run exports through the oracle `get_run_export`, drop entries that are in
the `ignore_run_exports` name set, and union bucket-wise. -/
def MambaSolver_get_run_exports (get_run_export : String → String → RunExports)
    (link_tuples : List LinkTuple)
    (_specs ignore_run_exports_from ignore_run_exports : List String) : RunExports :=
  let names := (_specs.map specName).toFinset
  let ign_rex_from := (ignore_run_exports_from.map specName).toFinset
  let ign_rex := (ignore_run_exports.map specName).toFinset
  link_tuples.foldl (fun acc lt =>
    if lt.name ∈ names ∧ lt.name ∉ ign_rex_from then
      acc.union ((get_run_export lt.channel lt.filename).filterEntries ign_rex)
    else acc) DEFAULT_RUN_EXPORTS

/-- Modelled from the spec (for the refinement comparison of claim C3):
the aggregation as the claim words it, discarding every export entry
whose TARGET PACKAGE NAME appears in `ignore_run_exports`, rather than
entries literally equal to an ignored name. -/
def runExportsAggregateSpec (get_run_export : String → String → RunExports)
    (link_tuples : List LinkTuple)
    (_specs ignore_run_exports_from ignore_run_exports : List String) : RunExports :=
  let names := (_specs.map specName).toFinset
  let ign_rex_from := (ignore_run_exports_from.map specName).toFinset
  let ign_rex := (ignore_run_exports.map specName).toFinset
  link_tuples.foldl (fun acc lt =>
    if lt.name ∈ names ∧ lt.name ∉ ign_rex_from then
      acc.union
        ⟨((get_run_export lt.channel lt.filename).weak.filter (specName · ∉ ign_rex)),
          ((get_run_export lt.channel lt.filename).strong.filter (specName · ∉ ign_rex)),
          ((get_run_export lt.channel lt.filename).noarch.filter (specName · ∉ ign_rex)),
          ((get_run_export lt.channel lt.filename).weak_constrains.filter
            (specName · ∉ ign_rex)),
          ((get_run_export lt.channel lt.filename).strong_constrains.filter
            (specName · ∉ ign_rex))⟩
    else acc) DEFAULT_RUN_EXPORTS

/-- A run-export record whose only entry is a weak export on `numpy` with a
version range. -/
def rxNumpyRange : RunExports := ⟨{"numpy >=1.21"}, ∅, ∅, ∅, ∅⟩

/-! ### Claim C8: pin expression evaluation (`utils.py` lines 570-594) -/

/-- Python truthiness of a string argument (absent parameters are passed as
the empty string). -/
def pyTruthy (s : String) : Bool := s ≠ ""

/-- `str.strip()` at the `String` level. -/
def pyStripString (s : String) : String := String.mk (pyStrip (pystr s))

/-- `"." `-joined rendering of numeric version components. -/
def joinDots (parts : List Nat) : String :=
  String.intercalate "." (parts.map toString)

/-- The decimal value of a digit character. -/
def digitVal (c : Char) : Option Nat :=
  if '0' ≤ c ∧ c ≤ '9' then some (c.toNat - '0'.toNat) else none

/-- A non-empty all-digit character list as a natural number (the modelled
domain of Python `int`). -/
def pyParseNat (cs : PyStr) : Option Nat :=
  if cs = [] then none
  else cs.foldlM (fun acc c => (digitVal c).map (fun d => acc * 10 + d)) 0

/-- The numeric components of a dotted version string, `none` outside the
numeric-dotted domain. -/
def parseVersionNums (v : String) : Option (List Nat) :=
  ((pystr v).splitOn '.').mapM pyParseNat

/-- Modelled from the spec: conda-build's `apply_pin_expressions` (an
external collaborator of `_apply_pin_compatible`; section 4.4 of the spec:
min/max pin patterns of `x`-repeated granularity, the upper bound one
increment above the last pinned component with the `a0` alpha-suffix
convention), restricted to plainly numeric dotted versions — the behavior
the repository's own tests pin down (`>=1.2.3,<2.0a0` for the defaults,
`>=1.2.3,<1.3.0a0` for `max_pin="x.x"`, `>=1.2,<2.0a0` for
`min_pin="x.x"`). -/
def apply_pin_expressions (version : String) (min_pin : String := "x.x.x.x.x.x")
    (max_pin : String := "x") : Option String :=
  match parseVersionNums version with
  | none => none
  | some parts =>
    let nMin : Option Nat :=
      if min_pin = "" then none else some ((pystr min_pin).splitOn '.').length
    let nMax : Option Nat :=
      if max_pin = "" then none
      else some (min ((pystr max_pin).splitOn '.').length parts.length)
    let lower : Option String := nMin.map (fun k => ">=" ++ joinDots (parts.take k))
    let upper : Option String := nMax.map (fun k =>
      joinDots ((parts.take (k - 1)) ++ [parts.getD (k - 1) 0 + 1]) ++ ".0a0")
    match lower, upper with
    | some l, some u => some (l ++ ",<" ++ u)
    | some l, none => some l
    | none, some u => some ("<" ++ u)
    | none, none => some ""

/-- `_apply_pin_compatible` from `utils.py` lines 570-594.  All optional
arguments arrive as strings with Python truthiness (the empty string for
an absent argument); `exact` is truthy for any non-empty string, exactly
as at the call site where it is the rendered `"True"`.  The outer `none`
marks inputs outside the modelled numeric-version domain of
`apply_pin_expressions`; `Except.error` models the `ValueError` on a
missing version and the `NameError` when `upper_bound` is given while
both `min_pin` and `lower_bound` are falsy. -/
def _apply_pin_compatible (version build : String) (lower_bound : String := "")
    (upper_bound : String := "") (min_pin : String := "x.x.x.x.x.x")
    (max_pin : String := "x") (exact : String := "") :
    Option (Except String String) :=
  if pyTruthy exact then
    some (.ok (pyStripString (version ++ " " ++ build)))
  else
    let _version := if pyTruthy lower_bound then lower_bound else version
    if pyTruthy _version then
      if pyTruthy upper_bound then
        if pyTruthy min_pin || pyTruthy lower_bound then
          some (.ok (pyStripString (">=" ++ _version ++ "," ++ "<" ++ upper_bound)))
        else
          some (.error "NameError: local variable referenced before assignment")
      else
        match apply_pin_expressions _version min_pin max_pin with
        | none => none
        | some compatibility => some (.ok (pyStripString compatibility))
    else
      some (.error "ValueError: No version or lower bound found for pin_compatible!")

/-! ### Claim C9: pin replacement (`utils.py` lines 597-699) -/

/-- Fuel-driven worker for `pySplitSub`; with fuel at least the length of
the string the fuel never runs out, since every step consumes at least one
character. -/
def pySplitSubAux (sep : PyStr) : Nat → PyStr → List PyStr
  | 0, s => [s]
  | fuel + 1, s =>
    if sep ≠ [] ∧ sep.isPrefixOf s then
      [] :: pySplitSubAux sep fuel (s.drop sep.length)
    else
      match s with
      | [] => [[]]
      | c :: rest => (pySplitSubAux sep fuel rest).modifyHead (fun h => c :: h)

/-- Python `str.split(sep)` for a multi-character separator (non-empty,
non-overlapping, left-to-right). -/
def pySplitSub (sep : PyStr) (s : PyStr) : List PyStr :=
  pySplitSubAux sep s.length s

/-- Decidable equality for `Except`, for evaluating the embedding on
concrete inputs. -/
instance {α β : Type} [DecidableEq α] [DecidableEq β] : DecidableEq (Except α β) :=
  fun x y =>
    match x, y with
    | .ok a, .ok b =>
      if h : a = b then .isTrue (by rw [h]) else .isFalse (by simp [h])
    | .error a, .error b =>
      if h : a = b then .isTrue (by rw [h]) else .isFalse (by simp [h])
    | .ok _, .error _ => .isFalse (by simp)
    | .error _, .ok _ => .isFalse (by simp)

/-- `_strip_quotes` from `utils.py` lines 597-603. -/
def _strip_quotes (s : PyStr) : PyStr :=
  if pyStartswith (pystr "\"") s && decide (s.getLast? = some '"') then
    (s.tail).dropLast
  else if pyStartswith [Char.ofNat 39] s && decide (s.getLast? = some (Char.ofNat 39)) then
    (s.tail).dropLast
  else s

/-- Python `str.lower()` restricted to ASCII (enough for the
`"exact=true" in req.lower()` check). -/
def pyLower (s : PyStr) : PyStr := s.map Char.toLower

/-- The host-requirements lookup
`{req.split(" ")[0]: req.split(" ")[1:] for req in host_reqs}`: an
association list where, as in a Python dict comprehension, a later entry
for the same name wins (hence lookups search the reversed list). -/
def hostLookup (host_reqs : List String) : List (String × List String) :=
  host_reqs.map (fun r =>
    (String.mk ((pySplit ' ' (pystr r)).headI),
      ((pySplit ' ' (pystr r)).tail).map String.mk))

/-- `host_lookup[name]` with later-entry-wins dict semantics. -/
def hostLookupGet (host_reqs : List String) (name : String) : Option (List String) :=
  ((hostLookup host_reqs).reverse).lookup name

/-- The text after the final `)` of a pin requirement
(`req.rsplit(")", 1)[1].strip()`, or `""` when there is no `)`). -/
def pinReqBuild (req : String) : String :=
  match pyRsplitOnce ')' req with
  | some (_, after) => pyStripString after
  | none => ""

/-- The part of a pin requirement before the final `)`
(`req.rsplit(")", 1)[0]`, the whole string when there is no `)`). -/
def pinReqFront (req : String) : String :=
  match pyRsplitOnce ')' req with
  | some (front, _) => front
  | none => req

/-- The comma-split argument text of a pin requirement:
`parts[0].split("pin_compatible(")[1].split(",")`. -/
def pinReqParts (req : String) : List String :=
  (pySplit ',' (((pySplitSub (pystr "pin_compatible(")
    (pystr (pinReqFront req))).getD 1 []))).map String.mk

/-- The pinned dependency name: `_strip_quotes(parts[0].strip())`. -/
def pinReqName (req : String) : String :=
  String.mk (_strip_quotes (pystr (pyStripString ((pinReqParts req).headI))))

/-- The five keyword parameters of `_apply_pin_compatible`, with their
defaults, as strings carrying Python truthiness. -/
structure PinParams where
  lower_bound : String := ""
  upper_bound : String := ""
  min_pin : String := "x.x.x.x.x.x"
  max_pin : String := "x"
  exact : String := ""

/-- Assign one keyword argument; unknown keywords model `TypeError`. -/
def setPinKwarg (ps : PinParams) (k v : String) : Except String PinParams :=
  if k = "lower_bound" then .ok { ps with lower_bound := v }
  else if k = "upper_bound" then .ok { ps with upper_bound := v }
  else if k = "min_pin" then .ok { ps with min_pin := v }
  else if k = "max_pin" then .ok { ps with max_pin := v }
  else if k = "exact" then .ok { ps with exact := v }
  else .error ("TypeError: unexpected keyword argument " ++ k)

/-- Assign positional arguments in declaration order; more than five
models `TypeError`. -/
def setPinArgs (ps : PinParams) (args : List String) : Except String PinParams :=
  match args with
  | [] => .ok ps
  | [a] => .ok { ps with lower_bound := a }
  | [a, b] => .ok { ps with lower_bound := a, upper_bound := b }
  | [a, b, c] => .ok { ps with lower_bound := a, upper_bound := b, min_pin := c }
  | [a, b, c, d] =>
    .ok { ps with lower_bound := a, upper_bound := b, min_pin := c, max_pin := d }
  | [a, b, c, d, e] =>
    .ok { ps with
        lower_bound := a, upper_bound := b, min_pin := c, max_pin := d,
        exact := e }
  | _ => .error "TypeError: too many positional arguments"

/-- Parse the argument parts after the name into positional arguments and
keyword arguments (`utils.py` lines 678-685): a part with `=` splits into
key and quote-stripped value (a part with several `=` models the
`ValueError` from tuple unpacking), any other part is a stripped
positional argument. -/
def parsePinArgs (parts : List String) : Except String (List String × List (String × String)) :=
  parts.foldlM (fun (acc : List String × List (String × String)) part =>
    if pyContains (pystr "=") (pystr part) then
      match pySplit '=' (pystr part) with
      | [k, v] =>
        .ok (acc.1, acc.2 ++
          [(pyStripString (String.mk k),
            String.mk (_strip_quotes (pystr (pyStripString (String.mk v)))))])
      | _ => .error "ValueError: too many values to unpack"
    else
      .ok (acc.1 ++ [pyStripString part], acc.2)) ([], [])

/-- `replace_pin_compatible` from `utils.py` lines 606-699, one
requirement at a time: requirements without `pin_compatible(` pass through
unchanged; a requirement containing it elsewhere than at the start raises;
a pin whose name is missing from the host lookup (or has no version
behind it) raises in strict mode and degrades to an unconstrained
requirement in lenient mode; otherwise the pin expression is evaluated
against the host version/build.  The outer `none` marks inputs outside the
modelled numeric-version domain of `apply_pin_expressions`. -/
def replacePinOne (host_reqs : List String) (strict : Bool) (req : String) :
    Option (Except String String) :=
  if pyContains (pystr "pin_compatible(") (pystr req) then
    if !pyStartswith (pystr "pin_compatible(") (pystr req) then
      some (.error ("Very odd pinning: " ++ req ++ "!"))
    else
      let build := pinReqBuild req
      let name := pinReqName req
      let rest := (pinReqParts req).tail
      match hostLookupGet host_reqs name with
      | none =>
        if strict then
          some (.error ("Very odd pinning: " ++ req ++ "! Package " ++ name ++
            " not found in host!"))
        else if build ≠ "" then
          some (.ok (name ++ " * " ++ build))
        else
          some (.ok name)
      | some [] =>
        if strict then
          some (.error ("Very odd pinning: " ++ req ++
            "! Package found in host but no version!"))
        else if build ≠ "" then
          some (.ok (name ++ " * " ++ build))
        else
          some (.ok name)
      | some (host_version :: restLookup) =>
        let host_build := restLookup.headD ""
        if restLookup ≠ [] ∧ build ≠ "" ∧
            pyContains (pystr "exact=true") (pyLower (pystr req)) then
          some (.error ("Build string cannot be given for pin_compatible with "
            ++ "exact=True! " ++ req))
        else
          match parsePinArgs rest with
          | .error e => some (.error e)
          | .ok (args, kwargs) =>
            match setPinArgs {} args with
            | .error e => some (.error e)
            | .ok ps0 =>
              match kwargs.foldlM (fun ps kv => setPinKwarg ps kv.1 kv.2) ps0 with
              | .error e => some (.error e)
              | .ok ps =>
                match _apply_pin_compatible host_version host_build ps.lower_bound
                    ps.upper_bound ps.min_pin ps.max_pin ps.exact with
                | none => none
                | some (.error e) => some (.error e)
                | some (.ok pin) =>
                  some (.ok (pyStripString (name ++ " " ++ pin ++ " " ++ build)))
  else
    some (.ok req)

/-- `replace_pin_compatible` over a requirement list: each requirement is
rewritten by `replacePinOne`; the first raised error propagates. -/
def replace_pin_compatible (host_reqs : List String) (strict : Bool) :
    List String → Option (Except String (List String))
  | [] => some (.ok [])
  | r :: rs =>
    match replacePinOne host_reqs strict r with
    | none => none
    | some (.error e) => some (.error e)
    | some (.ok nr) =>
      match replace_pin_compatible host_reqs strict rs with
      | none => none
      | some (.error e) => some (.error e)
      | some (.ok nrs) => some (.ok (nr :: nrs))

/-! ### Claim C10: virtual package registries
(`virtual_packages.py` lines 99-164, `rattler_solver.py` lines 234-342) -/

def MAX_GLIBC_MINOR : Nat := 50

def MAX_FUTURE_VERSION : Nat := 20

/-- `ALL_PLATFORMS` from `utils.py` (a Python set; modelled as a list, the
iteration order being unspecified anyway). -/
def ALL_PLATFORMS : List String :=
  ["linux-aarch64", "linux-ppc64le", "linux-64", "osx-64", "osx-arm64", "win-64"]

/-- `MINIMUM_CUDA_VERS` from `utils.py` lines 50-68. -/
def MINIMUM_CUDA_VERS : List String :=
  ["9.2", "10.0", "10.1", "10.2", "11.0", "11.1", "11.2", "11.3", "11.4",
    "11.5", "11.6", "11.7", "11.8"] ++
  (List.range MAX_FUTURE_VERSION).flatMap (fun cuda_minor =>
    (List.range' 12 (MAX_FUTURE_VERSION - 12)).map (fun cuda_major =>
      toString cuda_major ++ "." ++ toString cuda_minor))

/-- `MINIMUM_OSX_64_VERS` from `utils.py` lines 70-79. -/
def MINIMUM_OSX_64_VERS : List String :=
  ["10.9", "10.10", "10.11", "10.12", "10.13", "10.14", "10.15", "10.16"]

/-- `MINIMUM_OSX_ARM64_VERS` from `utils.py` lines 80-84. -/
def MINIMUM_OSX_ARM64_VERS : List String :=
  MINIMUM_OSX_64_VERS ++
  (List.range MAX_FUTURE_VERSION).flatMap (fun osx_minor =>
    (List.range' 11 (MAX_FUTURE_VERSION - 11)).map (fun osx_major =>
      toString osx_major ++ "." ++ toString osx_minor))

/-- `FakePackage` from `virtual_packages.py` lines 24-45 (the fields used
by `virtual_package_repodata`). -/
structure FakePackage where
  name : String
  version : String := "1.0"
  build_string : String := ""
  build_number : Nat := 0
deriving DecidableEq

/-- `virtual_package_repodata` from `virtual_packages.py` lines 99-164,
modelled as the sequence of `add_package` calls: each entry is the added
`FakePackage` with its subdir list (an empty subdir argument defaults to
`noarch`; `FakeRepoData` unions the subdir sets per package when
writing).  The live `conda search cuda-version` query is the parameter
`cuda_live` (empty on failure); its union with the hardcoded list models
`set(cuda_vers)` via `dedup`. -/
def virtual_package_repodata (cuda_live : List String) :
    List (FakePackage × List String) :=
  ((List.range' 12 (MAX_GLIBC_MINOR + 1 - 12)).map (fun glibc_minor =>
    ({ name := "__glibc", version := "2." ++ toString glibc_minor }, ["noarch"]))) ++
  (((cuda_live ++ MINIMUM_CUDA_VERS).dedup).map (fun cuda_ver =>
    ({ name := "__cuda", version := cuda_ver }, ["noarch"]))) ++
  (MINIMUM_OSX_64_VERS.map (fun osx_ver =>
    ({ name := "__osx", version := osx_ver }, ["osx-64"]))) ++
  (MINIMUM_OSX_ARM64_VERS.map (fun osx_ver =>
    ({ name := "__osx", version := osx_ver }, ["osx-arm64", "osx-64"]))) ++
  [({ name := "__win", version := "0" }, ALL_PLATFORMS.filter (fun s => s.startsWith "win")),
    ({ name := "__linux", version := "0" }, ALL_PLATFORMS.filter (fun s => s.startsWith "linux")),
    ({ name := "__unix", version := "0" }, ALL_PLATFORMS.filter (fun s => !s.startsWith "win"))]

/-- `GenericVirtualPackage` as constructed by the rattler backend. -/
structure GenericVirtualPackage where
  name : String
  version : String
  build : String
deriving DecidableEq

/-- The fixed architecture list of `virtual_packages_repodata`
(`rattler_solver.py` lines 313-324). -/
def archspecArches : List String :=
  ["x86", "x86_64", "aarch64", "armv6l", "armv7l", "ppc64le", "ppc64",
    "s390x", "riscv32", "riscv64"]

/-- The hardcoded CUDA list of `virtual_packages_repodata`
(`rattler_solver.py` lines 258-278). -/
def RATTLER_MINIMUM_CUDA_VERS : List String :=
  ["9.2", "10.0", "10.1", "10.2", "11.0", "11.1", "11.2", "11.3", "11.4",
    "11.5", "11.6", "11.7", "11.8", "12.0", "12.1", "12.2", "12.3", "12.4",
    "12.5"]

/-- `virtual_packages_repodata` from `rattler_solver.py` lines 234-342:
`__glibc` 2.12–2.50, the CUDA versions (live query result unioned with
the hardcoded list), `__osx` legacy plus the 11–16 × 0–16 matrix,
`__archspec` build-tagged per architecture, and the `__win`/`__unix`/
`__linux` markers. -/
def virtual_packages_repodata (cuda_live : List String) :
    List GenericVirtualPackage :=
  ((List.range' 12 (MAX_GLIBC_MINOR + 1 - 12)).map (fun glibc_minor =>
    ⟨"__glibc", "2." ++ toString glibc_minor, "0"⟩)) ++
  (((cuda_live ++ RATTLER_MINIMUM_CUDA_VERS).dedup).map (fun cuda_ver =>
    ⟨"__cuda", cuda_ver, "0"⟩)) ++
  (MINIMUM_OSX_64_VERS.map (fun osx_ver => ⟨"__osx", osx_ver, "0"⟩)) ++
  ((List.range' 11 6).flatMap (fun osx_major =>
    (List.range 17).map (fun osx_minor =>
      (⟨"__osx", toString osx_major ++ "." ++ toString osx_minor, "0"⟩ :
        GenericVirtualPackage)))) ++
  (archspecArches.map (fun arch => ⟨"__archspec", "1", arch⟩)) ++
  (["__win", "__unix", "__linux"].map (fun pkg => ⟨pkg, "0", "0"⟩))

/-! ### Claims C2 and C1: the requirement pipeline
(`check_solvable.py` lines 28-425) -/

/-- `PROBLEMATIC_REQS` from `utils.py` lines 86-89. -/
def PROBLEMATIC_REQS : Finset String := {"parquet-cpp"}

/-- `remove_reqs_by_name` from `utils.py` lines 498-501, on the set of
requirements (requirement lists are manipulated through Python `set`s in
the pipeline). -/
def remove_reqs_by_name (reqs : Finset String) (names : List String) : Finset String :=
  reqs.filter (fun r => specName r ∉ names)

/-- `remove_reqs_by_name` on a plain list (as used on the pin dependency
list inside `apply_pins`). -/
def remove_reqs_by_name_list (reqs : List String) (names : List String) : List String :=
  reqs.filter (fun r => decide (specName r ∉ names))

/-- `_filter_problematic_reqs` from `utils.py` lines 504-507. -/
def _filter_problematic_reqs (reqs : Finset String) : Finset String :=
  reqs.filter (fun r => specName r ∉ PROBLEMATIC_REQS)

/-- The oracle standing for conda-build's `get_pin_from_build` (an
external collaborator): given the requirement and the name-to-version
lookup built from the pin dependencies, return the pinned requirement, or
`none` for the exception that `apply_pins` catches. -/
abbrev GetPin := String → List (String × String) → Option String

/-- `full_build_dep_versions`: the `{dep.split()[0]: " ".join(dep.split()[1:])}`
dict built inside `apply_pins` (`utils.py` lines 517-520). -/
def full_build_dep_versions (pin_deps : List String) (outnames : List String) :
    List (String × String) :=
  (remove_reqs_by_name_list pin_deps outnames).map (fun dep =>
    (specName dep,
      String.intercalate " " (((pySplit ' ' (pystr dep)).tail).map String.mk)))

/-- `apply_pins` from `utils.py` lines 510-539: pin against the host
requirements when cross compiling, else the build requirements; a failed
pin falls back to the requirement itself; problematic requirements are
filtered at the end. -/
def apply_pins (getPin : GetPin) (reqs : Finset String)
    (host_req build_req : List String) (outnames : List String)
    (is_cross : Bool) : Finset String :=
  let pin_deps := if is_cross then host_req else build_req
  let fbdv := full_build_dep_versions pin_deps outnames
  _filter_problematic_reqs (reqs.image (fun dep => (getPin dep fbdv).getD dep))

/-- What one backend `solve` call returns: success flag, optional
infeasibility explanation, optional solution, and (when requested) run
exports (`DEFAULT_RUN_EXPORTS` on failure or when not requested). -/
structure SolveOutcome where
  ok : Bool
  err : Option String
  solution : Option (List String)
  rx : RunExports

/-- The pluggable solver backend of one variant (the pair of
`solver_factory` instances for the host and build platforms): arguments
are on-build-platform, get-run-exports, `ignore_run_exports_from`,
`ignore_run_exports`, the specs, and the constraints. -/
structure SolveOracle where
  solve : Bool → Bool → List String → List String → Finset String →
    Finset String → SolveOutcome

/-- The four pipeline stages. -/
inductive Stage
  | build
  | host
  | run
  | test
deriving DecidableEq

/-- One recorded backend `solve` invocation. -/
structure StageCall where
  stage : Stage
  buildPlatform : Bool
  getRunExports : Bool
  ignoreFrom : List String
  ignore : List String
  specs : Finset String
  constraints : Finset String
  outcome : SolveOutcome

/-- One rendered recipe output (`MetaData` accessors used by
`_is_recipe_solvable_on_platform`). -/
structure OutputMeta where
  name : String
  is_cross : Bool
  noarch : Bool
  noarch_python : Bool
  build_is_host : Bool
  build_req : List String
  host_req : List String
  run_req : List String
  run_constrained : List String
  test_requires : List String
  test_requirements : List String
  ignore_run_exports : List String
  ignore_run_exports_from : List String

/-- The mutable local state of the per-output loop body of
`_is_recipe_solvable_on_platform`, plus the instrumentation trace of the
backend calls made. -/
structure PipelineState where
  solvable : Bool
  errors : List String
  trace : List StageCall
  build_req : Finset String
  host_req : Finset String
  run_req : Finset String
  run_constrained : Finset String
  build_solution : List String
  host_solution : List String

def initState (m : OutputMeta) : PipelineState :=
  { solvable := true, errors := [], trace := [],
    build_req := m.build_req.toFinset, host_req := m.host_req.toFinset,
    run_req := m.run_req.toFinset,
    run_constrained := m.run_constrained.toFinset,
    build_solution := [], host_solution := [] }

/-- The run-export merging block after the build solve
(`check_solvable.py` lines 346-364). -/
def mergeBuildRx (m : OutputMeta) (brx : RunExports) (st : PipelineState) :
    PipelineState :=
  let st := { st with run_constrained := st.run_constrained ∪ brx.strong_constrains }
  if m.is_cross then
    let st := { st with host_req := st.host_req ∪ brx.strong }
    if !(m.noarch || m.noarch_python) then
      { st with run_req := st.run_req ∪ brx.strong }
    else st
  else
    if m.noarch || m.noarch_python then
      if m.build_is_host then { st with run_req := st.run_req ∪ brx.noarch } else st
    else
      let st := { st with run_req := st.run_req ∪ brx.strong }
      if m.build_is_host then
        { st with
          run_req := st.run_req ∪ brx.weak,
          run_constrained := st.run_constrained ∪ brx.weak_constrains }
      else
        { st with host_req := st.host_req ∪ brx.strong }

/-- Stage BUILD (`check_solvable.py` lines 333-364): runs only when the
build requirement set is non-empty; the variable `build_req` is replaced
by the name-filtered specs before the solve and by the solution (used by
`apply_pins` through `build_req or []`) after it. -/
def buildStage (o : SolveOracle) (outnames : List String) (m : OutputMeta)
    (st : PipelineState) : PipelineState :=
  if st.build_req ≠ ∅ then
    let specs := remove_reqs_by_name st.build_req outnames
    let oc := o.solve true true m.ignore_run_exports_from m.ignore_run_exports specs ∅
    mergeBuildRx m oc.rx
      { st with
        build_req := specs,
        solvable := st.solvable && oc.ok,
        errors := st.errors ++ oc.err.toList,
        trace := st.trace ++ [⟨Stage.build, true, true, m.ignore_run_exports_from,
          m.ignore_run_exports, specs, ∅, oc⟩],
        build_solution := oc.solution.getD [] }
  else st

/-- The run-export merging block after the host solve
(`check_solvable.py` lines 379-389). -/
def mergeHostRx (m : OutputMeta) (hrx : RunExports) (st : PipelineState) :
    PipelineState :=
  if m.is_cross then
    let st :=
      if m.noarch || m.noarch_python then
        { st with run_req := st.run_req ∪ hrx.noarch }
      else
        { st with run_req := st.run_req ∪ hrx.weak ∪ hrx.strong }
    { st with run_constrained :=
        st.run_constrained ∪ hrx.weak_constrains ∪ hrx.strong_constrains }
  else st

/-- Stage HOST (`check_solvable.py` lines 366-389): runs only when the
(possibly build-stage-extended) host requirement set is non-empty. -/
def hostStage (o : SolveOracle) (outnames : List String) (m : OutputMeta)
    (st : PipelineState) : PipelineState :=
  if st.host_req ≠ ∅ then
    let specs := remove_reqs_by_name st.host_req outnames
    let oc := o.solve false true m.ignore_run_exports_from m.ignore_run_exports specs ∅
    mergeHostRx m oc.rx
      { st with
        host_req := specs,
        solvable := st.solvable && oc.ok,
        errors := st.errors ++ oc.err.toList,
        trace := st.trace ++ [⟨Stage.host, false, true, m.ignore_run_exports_from,
          m.ignore_run_exports, specs, ∅, oc⟩],
        host_solution := oc.solution.getD [] }
  else st

/-- Stage RUN (`check_solvable.py` lines 391-402): the pinning of
`run_constrained` happens unconditionally, the solve only when the run
requirement set is non-empty; the constraints are the pinned
`run_constrained` set. -/
def runStage (o : SolveOracle) (getPin : GetPin) (outnames : List String)
    (m : OutputMeta) (st : PipelineState) : PipelineState :=
  let st0 := { st with
    run_constrained :=
      apply_pins getPin st.run_constrained st.host_solution st.build_solution
        outnames m.is_cross }
  if st0.run_req ≠ ∅ then
    let pinned := apply_pins getPin st0.run_req st0.host_solution
      st0.build_solution outnames m.is_cross
    let specs := remove_reqs_by_name pinned outnames
    let oc := o.solve false false [] [] specs st0.run_constrained
    { st0 with
      run_req := specs,
      solvable := st0.solvable && oc.ok,
      errors := st0.errors ++ oc.err.toList,
      trace := st0.trace ++ [⟨Stage.run, false, false, [], [], specs,
        st0.run_constrained, oc⟩] }
  else st0

/-- Stage TEST (`check_solvable.py` lines 404-416): the declared test
requirements together with the (possibly pinned) run requirements. -/
def testStage (o : SolveOracle) (outnames : List String) (m : OutputMeta)
    (st : PipelineState) : PipelineState :=
  let tst := m.test_requires.toFinset ∪ m.test_requirements.toFinset ∪ st.run_req
  if tst ≠ ∅ then
    let specs := remove_reqs_by_name tst outnames
    let oc := o.solve false false [] [] specs st.run_constrained
    { st with
      solvable := st.solvable && oc.ok,
      errors := st.errors ++ oc.err.toList,
      trace := st.trace ++ [⟨Stage.test, false, false, [], [], specs,
        st.run_constrained, oc⟩] }
  else st

/-- The four-stage pipeline for one recipe output. -/
def checkOutput (o : SolveOracle) (getPin : GetPin) (outnames : List String)
    (m : OutputMeta) : PipelineState :=
  testStage o outnames m
    (runStage o getPin outnames m
      (hostStage o outnames m
        (buildStage o outnames m (initState m))))

/-- `_is_recipe_solvable_on_platform` (`check_solvable.py` lines 319-424):
loop over the rendered outputs, AND the solvabilities, concatenate the
errors (and, for instrumentation, the traces). -/
def _is_recipe_solvable_on_platform (o : SolveOracle) (getPin : GetPin)
    (metas : List OutputMeta) : Bool × List String × List StageCall :=
  let outnames := metas.map OutputMeta.name
  metas.foldl (fun acc m =>
    let st := checkOutput o getPin outnames m
    (acc.1 && st.solvable, acc.2.1 ++ st.errors, acc.2.2 ++ st.trace))
    (true, [], [])

/-- One variant config: the base name of its `.ci_support/*.yaml` file and
the outputs the renderer produced for it. -/
structure VariantData where
  cbc_name : String
  metas : List OutputMeta

/-- The diagnostic for a feedstock with no `.ci_support/*.yaml` files
(`check_solvable.py` lines 159-163). -/
def NO_CI_SUPPORT_MSG : String :=
  "No `.ci_support/*.yaml` files found! This can happen when a rerender " ++
  "results in no builds for a recipe (e.g., a recipe is python 2.7 only). " ++
  "This attempted migration is being reported as not solvable."

/-- The diagnostic for a feedstock without `recipe/meta.yaml`
(`check_solvable.py` lines 168-171). -/
def NO_META_YAML_MSG : String :=
  "No `recipe/meta.yaml` file found! This issue is quite weird and " ++
  "someone should investigate!"

/-- The per-variant loop of `_is_recipe_solvable` (`check_solvable.py`
lines 178-212): before each variant the elapsed-time check may fire and
return `(True, [], {})`; otherwise the variant is checked, its solvability
ANDed in, its errors prefixed with the config name, and its verdict
recorded. -/
def solvableLoop (oracle : String → SolveOracle) (getPin : GetPin)
    (timeoutEnabled : Bool) (timedOutAt : Nat → Bool) :
    Nat → List VariantData → Bool → List String → List (String × Bool) →
      Bool × List String × List (String × Bool)
  | _, [], solvable, errors, byCbc => (solvable, errors, byCbc)
  | i, v :: vs, solvable, errors, byCbc =>
    if timeoutEnabled && timedOutAt i then
      (true, [], [])
    else
      let res := _is_recipe_solvable_on_platform (oracle v.cbc_name) getPin v.metas
      solvableLoop oracle getPin timeoutEnabled timedOutAt (i + 1) vs
        (solvable && res.1)
        (errors ++ res.2.1.map (fun e => v.cbc_name ++ ": " ++ e))
        (byCbc ++ [(v.cbc_name, res.1)])

/-- `_is_recipe_solvable` (`check_solvable.py` lines 139-216): the sorted
`.ci_support` glob and the renderer results arrive as `variants`; the
presence of `recipe/meta.yaml` and the wall clock are abstracted as the
flag `metaYamlExists` and the per-iteration predicate `timedOutAt`. -/
def _is_recipe_solvable (oracle : String → SolveOracle) (getPin : GetPin)
    (variants : List VariantData) (metaYamlExists : Bool)
    (timeoutEnabled : Bool) (timedOutAt : Nat → Bool) :
    Bool × List String × List (String × Bool) :=
  if variants.isEmpty then
    (false, [NO_CI_SUPPORT_MSG], [])
  else if !metaYamlExists then
    (false, [NO_META_YAML_MSG], [])
  else
    solvableLoop oracle getPin timeoutEnabled timedOutAt 0 variants true [] []

/-- What became of the worker process `is_recipe_solvable` spawns when a
timeout is given: it completed and sent its result, it sent an exception
(`repr(e)`), or the timeout elapsed before it answered. -/
inductive WorkerFate
  | completed
  | timedOut
  | crashed (errRepr : String)

/-- `is_recipe_solvable` (`check_solvable.py` lines 44-136): with a truthy
timeout and a known solver the work runs in a worker process — a timeout
yields `(True, [], {})`, an exception `(False, [repr(e)], {})`, and
completion the worker's `_is_recipe_solvable` result (the subprocess path
passes no timeout down, hence the inner check never fires); otherwise
`_is_recipe_solvable` runs inline with the timeout forwarded. -/
def is_recipe_solvable (oracle : String → SolveOracle) (getPin : GetPin)
    (variants : List VariantData) (metaYamlExists : Bool)
    (timeoutEnabled : Bool) (solverKnown : Bool) (fate : WorkerFate)
    (timedOutAt : Nat → Bool) : Bool × List String × List (String × Bool) :=
  if timeoutEnabled && solverKnown then
    match fate with
    | .timedOut => (true, [], [])
    | .crashed e => (false, [e], [])
    | .completed =>
      _is_recipe_solvable oracle getPin variants metaYamlExists false
        (fun _ => false)
  else
    _is_recipe_solvable oracle getPin variants metaYamlExists timeoutEnabled
      timedOutAt

/-- The relation between a pipeline state and a later one: the later state
appended exactly the backend calls `new` to the trace, ANDed their
successes into the solvability flag, appended their explanations to the
error list, and each recorded call's outcome is what the backend returns
for its recorded arguments. -/
def StAppends (o : SolveOracle) (st st' : PipelineState)
    (new : List StageCall) : Prop :=
  st'.trace = st.trace ++ new ∧
  st'.solvable = (st.solvable && new.all (fun c => c.outcome.ok)) ∧
  st'.errors = st.errors ++ new.filterMap (fun c => c.outcome.err) ∧
  ∀ c ∈ new, c.outcome =
    o.solve c.buildPlatform c.getRunExports c.ignoreFrom c.ignore c.specs
      c.constraints

/-- A concrete always-solvable backend used to exercise the pipeline
theorems at concrete inputs. -/
def demoOutcome : SolveOutcome :=
  ⟨true, none, some [], DEFAULT_RUN_EXPORTS⟩

def demoOracle : SolveOracle :=
  ⟨fun _ _ _ _ _ _ => demoOutcome⟩

def demoGetPin : GetPin := fun _ _ => none

def demoMeta : OutputMeta :=
  ⟨"pkg", false, false, false, false, ["python"], [], [], [], [], [], [], []⟩

/-! ### Basic lemmas about the Python string primitives -/

theorem mem_splitOnP_mem_and_not {α : Type} {p : α → Bool} :
    ∀ (xs : List α) (l : List α), l ∈ xs.splitOnP p → ∀ a ∈ l, a ∈ xs ∧ p a = false := by
  intro xs
  induction xs with
  | nil =>
    intro l hl a ha
    simp only [List.splitOnP_nil, List.mem_singleton] at hl
    subst hl
    exact absurd ha (List.not_mem_nil a)
  | cons x xs ih =>
    intro l hl a ha
    rw [List.splitOnP_cons] at hl
    by_cases hx : p x
    · rw [if_pos hx] at hl
      rcases List.mem_cons.mp hl with h | h
      · subst h; exact absurd ha (List.not_mem_nil a)
      · obtain ⟨h1, h2⟩ := ih l h a ha
        exact ⟨List.mem_cons_of_mem _ h1, h2⟩
    · rw [if_neg hx] at hl
      rcases hsp : xs.splitOnP p with _ | ⟨hd, tl⟩
      · exact absurd hsp (List.splitOnP_ne_nil p xs)
      · rw [hsp] at hl
        simp only [List.modifyHead, List.mem_cons] at hl
        rcases hl with h | h
        · subst h
          rcases List.mem_cons.mp ha with h | h
          · subst h
            exact ⟨List.mem_cons_self _ _, Bool.eq_false_iff.mpr hx⟩
          · obtain ⟨h1, h2⟩ := ih hd (hsp ▸ List.mem_cons_self _ _) a h
            exact ⟨List.mem_cons_of_mem _ h1, h2⟩
        · obtain ⟨h1, h2⟩ := ih l (hsp ▸ List.mem_cons_of_mem _ h) a ha
          exact ⟨List.mem_cons_of_mem _ h1, h2⟩

theorem mem_pySplit_mem {sep : Char} {s l : PyStr} (hl : l ∈ pySplit sep s) :
    ∀ a ∈ l, a ∈ s ∧ a ≠ sep := by
  intro a ha
  have := mem_splitOnP_mem_and_not s l (by simpa [pySplit, List.splitOn] using hl) a ha
  exact ⟨this.1, by simpa using this.2⟩

theorem pySplit_ne_nil (sep : Char) (s : PyStr) : pySplit sep s ≠ [] := by
  simpa [pySplit, List.splitOn] using List.splitOnP_ne_nil (· == sep) s

theorem pySplit_pyJoin {sep : Char} {ls : List PyStr}
    (h : ∀ l ∈ ls, sep ∉ l) (hne : ls ≠ []) : pySplit sep (pyJoin sep ls) = ls := by
  simpa [pySplit, pyJoin] using List.splitOn_intercalate ls sep h hne

theorem mem_pyJoin {sep : Char} {ls : List PyStr} {a : Char}
    (ha : a ∈ pyJoin sep ls) : a = sep ∨ ∃ l ∈ ls, a ∈ l := by
  induction ls with
  | nil => simp [pyJoin, List.intercalate] at ha
  | cons x xs ih =>
    cases xs with
    | nil =>
      simp only [pyJoin, List.intercalate, List.intersperse_singleton,
        List.flatten, List.append_nil] at ha
      exact Or.inr ⟨x, List.mem_singleton_self x, ha⟩
    | cons y ys =>
      simp only [pyJoin, List.intercalate, List.intersperse_cons_cons,
        List.flatten, List.mem_append, List.mem_singleton] at ha
      rcases ha with h | h | h
      · exact Or.inr ⟨x, List.mem_cons_self _ _, h⟩
      · exact Or.inl h
      · have : a ∈ pyJoin sep (y :: ys) := by
          simpa [pyJoin, List.intercalate] using h
        rcases ih this with h1 | ⟨l, hl, hal⟩
        · exact Or.inl h1
        · exact Or.inr ⟨l, List.mem_cons_of_mem _ hl, hal⟩

theorem pyJoin_ne_nil {sep : Char} {ls : List PyStr}
    (hne : ls ≠ []) (h : ∀ l ∈ ls, l ≠ []) : pyJoin sep ls ≠ [] := by
  cases ls with
  | nil => exact absurd rfl hne
  | cons x xs =>
    cases xs with
    | nil =>
      simpa [pyJoin, List.intercalate] using h x (List.mem_cons_self _ _)
    | cons y ys =>
      have hx := h x (List.mem_cons_self _ _)
      simp only [pyJoin, List.intercalate, List.intersperse_cons_cons, List.flatten]
      intro hcon
      exact hx (List.append_eq_nil.mp hcon).1

theorem mem_pyStrip {s : PyStr} {a : Char} (ha : a ∈ pyStrip s) : a ∈ s := by
  unfold pyStrip at ha
  rw [List.mem_reverse] at ha
  have h1 := (@List.dropWhile_sublist Char ((s.dropWhile (· = ' ')).reverse)
    (· = ' ')).mem ha
  rw [List.mem_reverse] at h1
  exact (List.dropWhile_sublist (· = ' ')).mem h1

theorem dropWhile_space_of_no_space {t : PyStr} (ht : ' ' ∉ t) :
    t.dropWhile (· = ' ') = t := by
  apply List.dropWhile_eq_self_iff.mpr
  intro hh
  simp only [decide_eq_true_eq]
  intro heq
  exact ht (heq ▸ List.get_mem t 0 hh)

theorem pyStrip_of_no_space {s : PyStr} (h : ' ' ∉ s) : pyStrip s = s := by
  unfold pyStrip
  rw [dropWhile_space_of_no_space h,
    dropWhile_space_of_no_space (by simpa using h), List.reverse_reverse]

theorem pySplit_single_of_not_mem {sep : Char} {l : PyStr} (h : sep ∉ l) :
    pySplit sep l = [l] := by
  have : ∀ x ∈ l, ¬((x == sep) = true) := by
    intro x hx hcon
    exact h (beq_iff_eq.mp hcon ▸ hx)
  simpa [pySplit, List.splitOn] using List.splitOnP_eq_single (· == sep) l this

theorem pyJoin_single (sep : Char) (l : PyStr) : pyJoin sep [l] = l := by
  simp [pyJoin, List.intercalate]

/-! ### Properties of the clause munge -/

theorem mungeStarPiece_def (pp0 : PyStr) :
    mungeStarPiece pp0 =
      if REQ_START_NOSTAR.any (fun v => pyStartswith v (pyStrip pp0)) ||
          '*' ∈ (pyStrip pp0) then
        pyStrip pp0
      else
        (if pyStartswith (pystr "=") (pyStrip pp0) then (pyStrip pp0).tail
         else pyStrip pp0) ++ pystr ".*" := rfl

theorem mem_mungeStarPiece {pp : PyStr} {a : Char} (ha : a ∈ mungeStarPiece pp) :
    a ∈ pp ∨ a = '.' ∨ a = '*' := by
  unfold mungeStarPiece at ha
  by_cases hc : (REQ_START_NOSTAR.any (fun v => pyStartswith v (pyStrip pp)) ||
      '*' ∈ (pyStrip pp) : Bool)
  · rw [if_pos hc] at ha
    exact Or.inl (mem_pyStrip ha)
  · rw [if_neg hc] at ha
    rcases List.mem_append.mp ha with h | h
    · left
      by_cases he : pyStartswith (pystr "=") (pyStrip pp)
      · rw [if_pos he] at h
        exact mem_pyStrip (List.mem_of_mem_tail h)
      · rw [if_neg he] at h
        exact mem_pyStrip h
    · right
      simpa [pystr] using h

theorem mungeStarPiece_ne_nil (pp : PyStr) : mungeStarPiece pp ≠ [] := by
  unfold mungeStarPiece
  by_cases hc : (REQ_START_NOSTAR.any (fun v => pyStartswith v (pyStrip pp)) ||
      '*' ∈ (pyStrip pp) : Bool)
  · rw [if_pos hc]
    intro hnil
    rw [hnil] at hc
    simp [REQ_START_NOSTAR, pyStartswith, pystr] at hc
  · rw [if_neg hc]
    simp [pystr]

theorem mungeStarPiece_no_space {pp : PyStr} (h : ' ' ∉ pp) :
    ' ' ∉ mungeStarPiece pp := by
  intro hcon
  rcases mem_mungeStarPiece hcon with h1 | h1 | h1
  · exact h h1
  · exact absurd h1 (by decide)
  · exact absurd h1 (by decide)

theorem mungeStarPiece_idem {pp : PyStr} (h : ' ' ∉ pp) :
    mungeStarPiece (mungeStarPiece pp) = mungeStarPiece pp := by
  have hstrip : pyStrip pp = pp := pyStrip_of_no_space h
  by_cases hc : (REQ_START_NOSTAR.any (fun v => pyStartswith v (pyStrip pp)) ||
      '*' ∈ (pyStrip pp) : Bool)
  · have h1 : mungeStarPiece pp = pp := by
      unfold mungeStarPiece
      rw [if_pos hc, hstrip]
    rw [h1]
    unfold mungeStarPiece
    rw [if_pos hc, hstrip]
  · have h1 : mungeStarPiece pp =
        (if pyStartswith (pystr "=") pp then pp.tail else pp) ++ pystr ".*" := by
      unfold mungeStarPiece
      rw [if_neg hc, hstrip]
    have hsp2 : ' ' ∉ mungeStarPiece pp := mungeStarPiece_no_space h
    have hstar : '*' ∈ mungeStarPiece pp := by
      rw [h1]
      apply List.mem_append.mpr
      right
      simp [pystr]
    rw [mungeStarPiece_def (mungeStarPiece pp), pyStrip_of_no_space hsp2,
      if_pos (by simp [hstar])]

/-! ### Properties of the full version munge -/

theorem mem_munge_req_star {req : PyStr} {a : Char} (ha : a ∈ _munge_req_star req) :
    a ∈ req ∨ a = '.' ∨ a = '*' ∨ a = ',' ∨ a = '|' := by
  unfold _munge_req_star at ha
  rcases mem_pyJoin ha with h | ⟨l, hl, hal⟩
  · tauto
  · rcases List.mem_map.mp hl with ⟨p, hp, rfl⟩
    rcases mem_pyJoin hal with h | ⟨m, hm, ham⟩
    · tauto
    · rcases List.mem_map.mp hm with ⟨c, hc, rfl⟩
      rcases mem_mungeStarPiece ham with h | h | h
      · exact Or.inl ((mem_pySplit_mem hp a ((mem_pySplit_mem hc a h).1)).1)
      · tauto
      · tauto

theorem munge_req_star_no_space {req : PyStr} (h : ' ' ∉ req) :
    ' ' ∉ _munge_req_star req := by
  intro hcon
  rcases mem_munge_req_star hcon with h1 | h1 | h1 | h1 | h1
  · exact h h1
  all_goals exact absurd h1 (by decide)

theorem munge_req_star_ne_nil (req : PyStr) : _munge_req_star req ≠ [] := by
  unfold _munge_req_star
  apply pyJoin_ne_nil
  · intro hcon
    exact pySplit_ne_nil ',' req (List.map_eq_nil_iff.mp hcon)
  · intro l hl
    rcases List.mem_map.mp hl with ⟨p, hp, rfl⟩
    apply pyJoin_ne_nil
    · intro hcon
      exact pySplit_ne_nil '|' p (List.map_eq_nil_iff.mp hcon)
    · intro m hm
      rcases List.mem_map.mp hm with ⟨c, hc, rfl⟩
      exact mungeStarPiece_ne_nil c

theorem munge_req_star_idem {req : PyStr} (h : ' ' ∉ req) :
    _munge_req_star (_munge_req_star req) = _munge_req_star req := by
  have hgroup : ∀ p ∈ pySplit ',' req, ∀ c ∈ pySplit '|' p,
      (',' ∉ c ∧ '|' ∉ c) ∧ ' ' ∉ c := by
    intro p hp c hc
    constructor
    · constructor
      · intro hcon
        exact (mem_pySplit_mem hp ',' (mem_pySplit_mem hc ',' hcon).1).2 rfl
      · intro hcon
        exact (mem_pySplit_mem hc '|' hcon).2 rfl
    · intro hcon
      exact h (mem_pySplit_mem hp ' ' (mem_pySplit_mem hc ' ' hcon).1).1
  have hmsp_sep : ∀ p ∈ pySplit ',' req, ∀ c ∈ pySplit '|' p,
      ',' ∉ mungeStarPiece c ∧ '|' ∉ mungeStarPiece c := by
    intro p hp c hc
    obtain ⟨⟨hc1, hc2⟩, -⟩ := hgroup p hp c hc
    constructor
    · intro hcon
      rcases mem_mungeStarPiece hcon with h1 | h1 | h1
      · exact hc1 h1
      all_goals exact absurd h1 (by decide)
    · intro hcon
      rcases mem_mungeStarPiece hcon with h1 | h1 | h1
      · exact hc2 h1
      all_goals exact absurd h1 (by decide)
  have houter : ∀ l ∈ (pySplit ',' req).map (fun p =>
      pyJoin '|' ((pySplit '|' p).map mungeStarPiece)), ',' ∉ l := by
    intro l hl hcon
    rcases List.mem_map.mp hl with ⟨p, hp, rfl⟩
    rcases mem_pyJoin hcon with h1 | ⟨m, hm, ham⟩
    · exact absurd h1 (by decide)
    · rcases List.mem_map.mp hm with ⟨c, hc, rfl⟩
      exact (hmsp_sep p hp c hc).1 ham
  conv_lhs => rw [_munge_req_star, _munge_req_star]
  rw [pySplit_pyJoin houter (by
    intro hcon
    exact pySplit_ne_nil ',' req (List.map_eq_nil_iff.mp hcon))]
  rw [List.map_map]
  have hmap : ∀ p ∈ pySplit ',' req,
      (fun q => pyJoin '|' ((pySplit '|' q).map mungeStarPiece))
          (pyJoin '|' ((pySplit '|' p).map mungeStarPiece)) =
        pyJoin '|' ((pySplit '|' p).map mungeStarPiece) := by
    intro p hp
    simp only []
    rw [pySplit_pyJoin (by
        intro m hm
        rcases List.mem_map.mp hm with ⟨c, hc, rfl⟩
        exact (hmsp_sep p hp c hc).2)
      (by
        intro hcon
        exact pySplit_ne_nil '|' p (List.map_eq_nil_iff.mp hcon))]
    rw [List.map_map]
    congr 1
    apply List.map_congr_left
    intro c hc
    exact mungeStarPiece_idem (hgroup p hp c hc).2
  conv_rhs => rw [_munge_req_star]
  congr 1
  apply List.map_congr_left
  intro p hp
  simpa using hmap p hp

theorem parseMatchSpec_tokens {cs n : PyStr} {v b : Option PyStr}
    (h : parseMatchSpec cs = some (n, v, b)) :
    (n ≠ [] ∧ ' ' ∉ n) ∧
      (∀ vv, v = some vv → vv ≠ [] ∧ ' ' ∉ vv) ∧
      (∀ bb, b = some bb → bb ≠ [] ∧ ' ' ∉ bb) := by
  unfold parseMatchSpec at h
  rcases hL : pySplit ' ' cs with _ | ⟨t1, _ | ⟨t2, _ | ⟨t3, _ | ⟨t4, ts⟩⟩⟩⟩ <;>
    rw [hL] at h <;> dsimp only at h
  · simp at h
  · split_ifs at h with h1
    obtain ⟨rfl, rfl, rfl⟩ := by simpa using h
    refine ⟨⟨by simpa using h1, ?_⟩, by simp, by simp⟩
    intro hsp
    exact (mem_pySplit_mem (hL ▸ List.mem_cons_self t1 []) ' ' hsp).2 rfl
  · split_ifs at h with h1
    obtain ⟨rfl, rfl, rfl⟩ := by simpa using h
    simp only [Bool.and_eq_true, decide_eq_true_eq] at h1
    have ht1 : t1 ∈ pySplit ' ' cs := hL ▸ List.mem_cons_self _ _
    have ht2 : t2 ∈ pySplit ' ' cs := hL ▸ List.mem_cons_of_mem _ (List.mem_cons_self _ _)
    refine ⟨⟨h1.1, fun hsp => (mem_pySplit_mem ht1 ' ' hsp).2 rfl⟩, ?_, by simp⟩
    intro vv hvv
    obtain rfl := by simpa using hvv
    exact ⟨h1.2, fun hsp => (mem_pySplit_mem ht2 ' ' hsp).2 rfl⟩
  · split_ifs at h with h1
    obtain ⟨rfl, rfl, rfl⟩ := by simpa using h
    simp only [Bool.and_eq_true, decide_eq_true_eq] at h1
    have ht1 : t1 ∈ pySplit ' ' cs := hL ▸ List.mem_cons_self _ _
    have ht2 : t2 ∈ pySplit ' ' cs := hL ▸ List.mem_cons_of_mem _ (List.mem_cons_self _ _)
    have ht3 : t3 ∈ pySplit ' ' cs :=
      hL ▸ List.mem_cons_of_mem _ (List.mem_cons_of_mem _ (List.mem_cons_self _ _))
    refine ⟨⟨h1.1.1, fun hsp => (mem_pySplit_mem ht1 ' ' hsp).2 rfl⟩, ?_, ?_⟩
    · intro vv hvv
      obtain rfl := by simpa using hvv
      exact ⟨h1.1.2, fun hsp => (mem_pySplit_mem ht2 ' ' hsp).2 rfl⟩
    · intro bb hbb
      obtain rfl := by simpa using hbb
      exact ⟨h1.2, fun hsp => (mem_pySplit_mem ht3 ' ' hsp).2 rfl⟩
  · simp at h

/-- C5: normalization appends `.*` independently to each comma- or
pipe-separated sub-clause of the version field while preserving the
separators, except sub-clauses that already start with one of `!=`, `==`,
`>`, `<`, `>=`, `<=`, `~=` or that contain a `*`, which are left unchanged
(stated for version fields whose sub-clauses carry no surrounding
whitespace and no leading `=`, which the source additionally strips);
in particular `normalize("numpy 1.1") = "numpy 1.1.*"`,
`normalize("numpy >=1.1") = "numpy >=1.1"`, and
`normalize("numpy 1.1|2.0") = "numpy 1.1.*|2.0.*"`. -/
theorem claim_C5_star_munge_subclauses :
    (∀ req : PyStr,
      (∀ p ∈ pySplit ',' req, ∀ c ∈ pySplit '|' p,
          pyStrip c = c ∧ pyStartswith (pystr "=") c = false) →
        _munge_req_star req =
          pyJoin ',' ((pySplit ',' req).map (fun p =>
            pyJoin '|' ((pySplit '|' p).map claimStarPiece)))) ∧
    convert_spec_to_conda_build "numpy 1.1" = some "numpy 1.1.*" ∧
    convert_spec_to_conda_build "numpy >=1.1" = some "numpy >=1.1" ∧
    convert_spec_to_conda_build "numpy 1.1|2.0" = some "numpy 1.1.*|2.0.*" := by
  refine ⟨?_, by decide, by decide, by decide⟩
  intro req hreq
  unfold _munge_req_star
  congr 1
  apply List.map_congr_left
  intro p hp
  congr 1
  apply List.map_congr_left
  intro c hc
  obtain ⟨hstrip, heq⟩ := hreq p hp c hc
  rw [mungeStarPiece_def, hstrip]
  unfold claimStarPiece
  by_cases hcc : (REQ_START_NOSTAR.any (fun v => pyStartswith v c) || '*' ∈ c : Bool)
  · rw [if_pos hcc, if_pos hcc]
  · rw [if_neg hcc, if_neg hcc, heq]
    simp

/-- Witness for C5 at the concrete version field `1.1|2.0`. -/
theorem claim_C5_star_munge_subclauses_witness :
    (∀ p ∈ pySplit ',' (pystr "1.1|2.0"), ∀ c ∈ pySplit '|' p,
        pyStrip c = c ∧ pyStartswith (pystr "=") c = false) ∧
      _munge_req_star (pystr "1.1|2.0") =
        pyJoin ',' ((pySplit ',' (pystr "1.1|2.0")).map (fun p =>
          pyJoin '|' ((pySplit '|' p).map claimStarPiece))) :=
  ⟨by decide, claim_C5_star_munge_subclauses.1 (pystr "1.1|2.0") (by decide)⟩

theorem convert_roundtrip_aux (n : PyStr) (v b : Option PyStr)
    (hn : n ≠ [] ∧ ' ' ∉ n)
    (hv : ∀ vv, v = some vv → vv ≠ [] ∧ ' ' ∉ vv)
    (hb : ∀ bb, b = some bb → bb ≠ [] ∧ ' ' ∉ bb)
    (hvb : (b.isSome && v.isNone) = false) :
    convert_spec_to_conda_build
        (String.mk (pyJoin ' ' ([n] ++ (v.map _munge_req_star).toList ++ b.toList))) =
      some (String.mk (pyJoin ' ' ([n] ++ (v.map _munge_req_star).toList ++ b.toList))) := by
  rcases v with _ | vv
  · rcases b with _ | bb
    · have harg : [n] ++ ((none : Option PyStr).map _munge_req_star).toList ++
          (none : Option PyStr).toList = [n] := by simp
      rw [harg]
      have hparse : parseMatchSpec (pystr (String.mk (pyJoin ' ' [n]))) =
          some (n, none, none) := by
        unfold parseMatchSpec
        have hsp : pySplit ' ' (pystr (String.mk (pyJoin ' ' [n]))) = [n] := by
          show pySplit ' ' (pyJoin ' ' [n]) = [n]
          rw [pyJoin_single]
          exact pySplit_single_of_not_mem hn.2
        rw [hsp]
        dsimp only
        rw [if_pos hn.1]
      unfold convert_spec_to_conda_build
      rw [hparse]
      dsimp only
      unfold convertParts
      simp
    · simp at hvb
  · rcases b with _ | bb
    · obtain ⟨hvv_ne, hvv_sp⟩ := hv vv rfl
      have hmv_ne : _munge_req_star vv ≠ [] := munge_req_star_ne_nil vv
      have hmv_sp : ' ' ∉ _munge_req_star vv := munge_req_star_no_space hvv_sp
      have harg : [n] ++ ((some vv).map _munge_req_star).toList ++
          (none : Option PyStr).toList = [n, _munge_req_star vv] := by simp
      rw [harg]
      have hparse : parseMatchSpec (pystr (String.mk (pyJoin ' ' [n, _munge_req_star vv]))) =
          some (n, some (_munge_req_star vv), none) := by
        unfold parseMatchSpec
        have hsp : pySplit ' ' (pystr (String.mk (pyJoin ' ' [n, _munge_req_star vv]))) =
            [n, _munge_req_star vv] := by
          show pySplit ' ' (pyJoin ' ' [n, _munge_req_star vv]) = [n, _munge_req_star vv]
          apply pySplit_pyJoin
          · intro l hl
            rcases List.mem_cons.mp hl with rfl | hl2
            · exact hn.2
            · rcases List.mem_cons.mp hl2 with rfl | hl3
              · exact hmv_sp
              · exact absurd hl3 (List.not_mem_nil _)
          · simp
        rw [hsp]
        dsimp only
        rw [if_pos (by simp [hn.1, hmv_ne])]
      unfold convert_spec_to_conda_build
      rw [hparse]
      dsimp only
      unfold convertParts
      simp [munge_req_star_idem hvv_sp]
    · obtain ⟨hvv_ne, hvv_sp⟩ := hv vv rfl
      obtain ⟨hbb_ne, hbb_sp⟩ := hb bb rfl
      have hmv_ne : _munge_req_star vv ≠ [] := munge_req_star_ne_nil vv
      have hmv_sp : ' ' ∉ _munge_req_star vv := munge_req_star_no_space hvv_sp
      have harg : [n] ++ ((some vv).map _munge_req_star).toList ++
          (some bb).toList = [n, _munge_req_star vv, bb] := by simp
      rw [harg]
      have hparse : parseMatchSpec
          (pystr (String.mk (pyJoin ' ' [n, _munge_req_star vv, bb]))) =
          some (n, some (_munge_req_star vv), some bb) := by
        unfold parseMatchSpec
        have hsp : pySplit ' ' (pystr (String.mk (pyJoin ' ' [n, _munge_req_star vv, bb]))) =
            [n, _munge_req_star vv, bb] := by
          show pySplit ' ' (pyJoin ' ' [n, _munge_req_star vv, bb]) =
            [n, _munge_req_star vv, bb]
          apply pySplit_pyJoin
          · intro l hl
            rcases List.mem_cons.mp hl with rfl | hl2
            · exact hn.2
            · rcases List.mem_cons.mp hl2 with rfl | hl3
              · exact hmv_sp
              · rcases List.mem_cons.mp hl3 with rfl | hl4
                · exact hbb_sp
                · exact absurd hl4 (List.not_mem_nil _)
          · simp
        rw [hsp]
        dsimp only
        rw [if_pos (by simp [hn.1, hmv_ne, hbb_ne])]
      unfold convert_spec_to_conda_build
      rw [hparse]
      dsimp only
      unfold convertParts
      simp [munge_req_star_idem hvv_sp]

/-- C6: spec normalization is idempotent — whenever
`convert_spec_to_conda_build` maps a valid spec string `s` to `t`, it maps
`t` to `t` again. -/
theorem claim_C6_normalize_idempotent (s t : String)
    (h : convert_spec_to_conda_build s = some t) :
    convert_spec_to_conda_build t = some t := by
  unfold convert_spec_to_conda_build at h
  rcases hp : parseMatchSpec (pystr s) with _ | ⟨n, v, b⟩
  · rw [hp] at h
    dsimp only at h
    exact absurd h (by simp)
  · rw [hp] at h
    dsimp only at h
    obtain ⟨hn, hv, hb⟩ := parseMatchSpec_tokens hp
    unfold convertParts at h
    by_cases hvb : (b.isSome && v.isNone) = true
    · rw [if_pos hvb] at h
      simp at h
    · rw [if_neg hvb] at h
      obtain rfl := by simpa using h.symm
      exact convert_roundtrip_aux n v b hn hv hb (Bool.not_eq_true _ ▸ hvb)

/-- Witness for C6 at the concrete spec `numpy 1.1`. -/
theorem claim_C6_normalize_idempotent_witness :
    convert_spec_to_conda_build "numpy 1.1" = some "numpy 1.1.*" ∧
      convert_spec_to_conda_build "numpy 1.1.*" = some "numpy 1.1.*" :=
  ⟨by decide, claim_C6_normalize_idempotent "numpy 1.1" "numpy 1.1.*" (by decide)⟩

/-! ### Claim C7: canonicalization of raw run exports -/

theorem RunExports.eq_of_get {rx1 rx2 : RunExports}
    (h : ∀ b, rx1.get b = rx2.get b) : rx1 = rx2 := by
  cases rx1
  cases rx2
  have h1 := h .weak
  have h2 := h .strong
  have h3 := h .noarch
  have h4 := h .weak_constrains
  have h5 := h .strong_constrains
  simp only [RunExports.get] at h1 h2 h3 h4 h5
  simp only [RunExports.mk.injEq]
  exact ⟨h1, h2, h3, h4, h5⟩

theorem canonical_foldl_get (es : List (String × List String)) (acc : RunExports)
    (b : Bucket) :
    (es.foldl (fun acc e =>
        match bucketOfKey e.1 with
        | some bb => acc.updateBucket bb e.2
        | none => acc) acc).get b =
      (es.filter (fun e => bucketOfKey e.1 = some b)).foldl
        (fun s e => s ∪ e.2.toFinset) (acc.get b) := by
  induction es generalizing acc with
  | nil => rfl
  | cons e es ih =>
    rcases hk : bucketOfKey e.1 with _ | bb
    · simp only [List.foldl_cons, hk, List.filter_cons]
      rw [if_neg (by simp [hk])]
      exact ih acc
    · simp only [List.foldl_cons, hk, List.filter_cons]
      by_cases hbb : bb = b
      · subst hbb
        rw [if_pos (by simp)]
        rw [ih (acc.updateBucket bb e.2)]
        simp only [List.foldl_cons]
        congr 1
        cases bb <;> cases acc <;> rfl
      · rw [if_neg (by simp [hbb])]
        rw [ih (acc.updateBucket bb e.2)]
        congr 1
        cases bb <;> cases b <;> simp_all [RunExports.updateBucket, RunExports.get]

theorem canonical_map_get (es : List (String × List String)) (b : Bucket) :
    (_convert_run_exports_to_canonical_form (some (.map es))).get b =
      (es.filter (fun e => bucketOfKey e.1 = some b)).foldl
        (fun s e => s ∪ e.2.toFinset) ∅ := by
  show (es.foldl _ DEFAULT_RUN_EXPORTS).get b = _
  rw [canonical_foldl_get]
  congr 1
  cases b <;> rfl

/-- C7: for every raw run-exports value (absent, a single string, a flat
list, or a bucket-to-list mapping), canonicalization returns a record with
all five buckets: a single string becomes one `weak` entry, a flat list
becomes `weak` entries, mapping entries under recognized bucket keys are
merged into those buckets, and entries under unrecognized bucket keys are
ignored. -/
theorem claim_C7_canonical_run_exports :
    _convert_run_exports_to_canonical_form none = DEFAULT_RUN_EXPORTS ∧
    (∀ s : String, _convert_run_exports_to_canonical_form (some (.str s)) =
      { weak := {s}, strong := ∅, noarch := ∅,
        weak_constrains := ∅, strong_constrains := ∅ }) ∧
    (∀ l : List String, _convert_run_exports_to_canonical_form (some (.list l)) =
      { weak := l.toFinset, strong := ∅, noarch := ∅,
        weak_constrains := ∅, strong_constrains := ∅ }) ∧
    (∀ es b, (_convert_run_exports_to_canonical_form (some (.map es))).get b =
      (es.filter (fun e => bucketOfKey e.1 = some b)).foldl
        (fun s e => s ∪ e.2.toFinset) ∅) ∧
    (∀ es, _convert_run_exports_to_canonical_form (some (.map es)) =
      _convert_run_exports_to_canonical_form
        (some (.map (es.filter (fun e => (bucketOfKey e.1).isSome))))) := by
  refine ⟨rfl, ?_, ?_, canonical_map_get, ?_⟩
  · intro s
    show (DEFAULT_RUN_EXPORTS.updateBucket .weak [s]) = _
    simp [RunExports.updateBucket, DEFAULT_RUN_EXPORTS]
  · intro l
    show (DEFAULT_RUN_EXPORTS.updateBucket .weak l) = _
    simp [RunExports.updateBucket, DEFAULT_RUN_EXPORTS]
  · intro es
    apply RunExports.eq_of_get
    intro b
    rw [canonical_map_get, canonical_map_get]
    congr 1
    rw [List.filter_filter]
    apply List.filter_congr
    intro e he
    rcases hk : bucketOfKey e.1 with _ | bb <;> simp [hk]

/-- C4: the sources are tried in fixed order with first success winning;
sources 2/3 run only when source 1 returned nothing and the channel data
does not indicate absence; when source 1 returns nothing and the channel
data indicates absence the result short-circuits to the all-empty record
without consulting sources 2/3; and unavailable (`packages`-less) channel
data never indicates absence, so sources 2/3 are attempted. -/
theorem claim_C4_run_exports_fallback_chain :
    (∀ cd f s2 s3 rx, get_run_exports (some rx) cd f s2 s3 =
      some (_convert_run_exports_to_canonical_form (some rx), [.runExportsJson])) ∧
    (∀ cd f s2 s3, _has_run_exports_in_channel_data cd f = some false →
      get_run_exports none cd f s2 s3 =
        some (DEFAULT_RUN_EXPORTS, [.runExportsJson])) ∧
    (∀ cd f s3 rx, _has_run_exports_in_channel_data cd f = some true →
      get_run_exports none cd f (some rx) s3 =
        some (_convert_run_exports_to_canonical_form (some rx),
          [.runExportsJson, .artifactInfo])) ∧
    (∀ cd f s3, _has_run_exports_in_channel_data cd f = some true →
      get_run_exports none cd f none s3 =
        some (_convert_run_exports_to_canonical_form s3,
          [.runExportsJson, .artifactInfo, .download])) ∧
    (∀ cd f, cd.packages = none →
      _has_run_exports_in_channel_data cd f = some true ∨
        _has_run_exports_in_channel_data cd f = none) := by
  refine ⟨fun cd f s2 s3 rx => rfl, ?_, ?_, ?_, ?_⟩
  · intro cd f s2 s3 h
    unfold get_run_exports
    rw [h]
    rfl
  · intro cd f s3 rx h
    unfold get_run_exports
    rw [h]
  · intro cd f s3 h
    unfold get_run_exports
    rw [h]
  · intro cd f hcd
    unfold _has_run_exports_in_channel_data
    rcases h1 : pyRsplitOnce '-' f with _ | ⟨nv, rest⟩
    · right
      rfl
    · rcases h2 : pyRsplitOnce '-' nv with _ | ⟨name, ver⟩
      · right
        dsimp only
        rw [h2]
      · left
        dsimp only
        rw [h2, hcd]

/-- Witness for C4: a channel whose data indicates absence of run exports
for `numpy-2.0-h1.conda` short-circuits to the all-empty record. -/
theorem claim_C4_run_exports_fallback_chain_witness :
    _has_run_exports_in_channel_data
        ⟨some [("numpy", ⟨some ["1.0"]⟩)]⟩ "numpy-2.0-h1.conda" = some false ∧
      get_run_exports none ⟨some [("numpy", ⟨some ["1.0"]⟩)]⟩ "numpy-2.0-h1.conda"
          (some (.str "zlib")) (some (.str "zlib")) =
        some (DEFAULT_RUN_EXPORTS, [.runExportsJson]) :=
  ⟨by decide, claim_C4_run_exports_fallback_chain.2.1
    ⟨some [("numpy", ⟨some ["1.0"]⟩)]⟩ "numpy-2.0-h1.conda"
    (some (.str "zlib")) (some (.str "zlib")) (by decide)⟩

/-- Counterexample to C3 as stated: with `ignore_run_exports = ["numpy"]`,
a weak export entry `"numpy >=1.21"` — whose target package name is
`numpy` — is NOT discarded by the code (which drops only entries literally
equal to an ignored name), while the claim's reading discards it. -/
theorem claim_C3_counterexample :
    (MambaSolver_get_run_exports (fun _ _ => rxNumpyRange)
        [⟨"conda-forge", "foo-1.0-0.conda", "foo"⟩] ["foo"] [] ["numpy"]).weak =
      {"numpy >=1.21"} ∧
    (runExportsAggregateSpec (fun _ _ => rxNumpyRange)
        [⟨"conda-forge", "foo-1.0-0.conda", "foo"⟩] ["foo"] [] ["numpy"]).weak =
      ∅ := by
  constructor <;> decide

theorem RunExports.union_get (a b : RunExports) (bkt : Bucket) :
    (a.union b).get bkt = a.get bkt ∪ b.get bkt := by
  cases bkt <;> rfl

theorem RunExports.filterEntries_get (rx : RunExports) (ign : Finset String)
    (bkt : Bucket) :
    (rx.filterEntries ign).get bkt = (rx.get bkt).filter (· ∉ ign) := by
  cases bkt <;> rfl

theorem mamba_rx_foldl (g : String → String → RunExports) (lts : List LinkTuple)
    (names ignf ign : Finset String) (acc : RunExports) (b : Bucket) :
    (lts.foldl (fun acc lt =>
        if lt.name ∈ names ∧ lt.name ∉ ignf then
          acc.union ((g lt.channel lt.filename).filterEntries ign)
        else acc) acc).get b =
      (lts.filter (fun lt => decide (lt.name ∈ names ∧ lt.name ∉ ignf))).foldl
        (fun s lt => s ∪ ((g lt.channel lt.filename).get b).filter (· ∉ ign))
        (acc.get b) := by
  induction lts generalizing acc with
  | nil => rfl
  | cons lt lts ih =>
    by_cases hc : lt.name ∈ names ∧ lt.name ∉ ignf
    · rw [List.foldl_cons, if_pos hc, ih, List.filter_cons,
        if_pos (by simpa using hc), List.foldl_cons,
        RunExports.union_get, RunExports.filterEntries_get]
    · rw [List.foldl_cons, if_neg hc, List.filter_cons,
        if_neg (by simpa using hc)]
      exact ih acc

/-- C3 (amended): when run exports are requested after a successful solve,
the aggregate is the bucket-wise union of the run exports of exactly those
solved packages whose name matches one of the original specs and is not
in `ignore_run_exports_from`, where from each package's exports the
entries that are LITERALLY EQUAL to one of the `ignore_run_exports` names
(not every entry whose target name is ignored) are discarded before the
union. -/
theorem claim_C3_solver_run_exports_aggregation
    (g : String → String → RunExports) (lts : List LinkTuple)
    (_specs igf ig : List String) (b : Bucket) :
    (MambaSolver_get_run_exports g lts _specs igf ig).get b =
      (lts.filter (fun lt => decide (lt.name ∈ (_specs.map specName).toFinset ∧
          lt.name ∉ (igf.map specName).toFinset))).foldl
        (fun s lt => s ∪ ((g lt.channel lt.filename).get b).filter
          (· ∉ (ig.map specName).toFinset)) ∅ := by
  unfold MambaSolver_get_run_exports
  rw [mamba_rx_foldl]
  congr 1
  cases b <;> rfl

theorem dropWhile_space_of_head {s : PyStr} (h : s.head? ≠ some ' ') :
    s.dropWhile (· = ' ') = s := by
  cases s with
  | nil => rfl
  | cons a t =>
    rw [List.dropWhile_cons, if_neg]
    simp only [List.head?_cons, ne_eq, Option.some.injEq] at h
    simpa using h

theorem pyStrip_no_edge {s : PyStr} (h1 : s.head? ≠ some ' ')
    (h2 : s.getLast? ≠ some ' ') : pyStrip s = s := by
  unfold pyStrip
  rw [dropWhile_space_of_head h1,
    dropWhile_space_of_head (by rw [List.head?_reverse]; exact h2),
    List.reverse_reverse]

theorem pyStrip_sep_join {vd bd : PyStr} (hv : vd ≠ []) (hb : bd ≠ [])
    (hvs : ' ' ∉ vd) (hbs : ' ' ∉ bd) :
    pyStrip (vd ++ ' ' :: bd) = vd ++ ' ' :: bd := by
  apply pyStrip_no_edge
  · rcases vd with _ | ⟨c, t⟩
    · exact absurd rfl hv
    · simp only [List.cons_append, List.head?_cons, ne_eq, Option.some.injEq]
      intro hc
      exact hvs (hc ▸ List.mem_cons_self c t)
  · rcases bd with _ | ⟨b0, bt⟩
    · exact absurd rfl hb
    · rw [List.getLast?_append, List.getLast?_cons_cons,
        List.getLast?_eq_getLast (b0 :: bt) (by simp)]
      dsimp only [Option.or]
      simp only [ne_eq, Option.some.injEq]
      intro hd
      exact hbs (hd ▸ List.getLast_mem (by simp))

/-- C8: pin-expression evaluation: with `exact` truthy the result is
exactly `"{version} {build}"`; with an `upper_bound` given (and the
default truthy `min_pin` or a `lower_bound`) the result is
`">={base},<{upper_bound}"` where `base` is `lower_bound` if given else
the version; and on version `1.2.3` the default pins yield
`>=1.2.3,<2.0a0` while `max_pin="x.x"` yields `>=1.2.3,<1.3.0a0`. -/
theorem claim_C8_pin_compatible_evaluation :
    (∀ version build exactArg lb ub mp xp : String, pyTruthy exactArg = true →
      version ≠ "" → build ≠ "" → ' ' ∉ pystr version → ' ' ∉ pystr build →
      _apply_pin_compatible version build lb ub mp xp exactArg =
        some (.ok (version ++ " " ++ build))) ∧
    (∀ version build lb ub mp xp : String, pyTruthy ub = true →
      (pyTruthy mp || pyTruthy lb) = true →
      pyTruthy (if pyTruthy lb then lb else version) = true →
      _apply_pin_compatible version build lb ub mp xp "" =
        some (.ok (pyStripString
          (">=" ++ (if pyTruthy lb then lb else version) ++ "," ++ "<" ++ ub)))) ∧
    _apply_pin_compatible "1.2.3" "h24524543_0" = some (.ok ">=1.2.3,<2.0a0") ∧
    _apply_pin_compatible "1.2.3" "h24524543_0" "" "" "x.x.x.x.x.x" "x.x" =
      some (.ok ">=1.2.3,<1.3.0a0") := by
  refine ⟨?_, ?_, by rfl, by rfl⟩
  · intro version build exactArg lb ub mp xp hex hv hb hvs hbs
    unfold _apply_pin_compatible
    rw [if_pos hex]
    have hdata : pystr (version ++ " " ++ build) = pystr version ++ ' ' :: pystr build := by
      show (version ++ " " ++ build).data = version.data ++ ' ' :: build.data
      simp
    have hv_ne : pystr version ≠ [] := by
      intro hcon
      exact hv (congrArg String.mk hcon)
    have hb_ne : pystr build ≠ [] := by
      intro hcon
      exact hb (congrArg String.mk hcon)
    unfold pyStripString
    rw [hdata, pyStrip_sep_join hv_ne hb_ne hvs hbs, ← hdata]
    rfl
  · intro version build lb ub mp xp hub hmp hver
    unfold _apply_pin_compatible
    rw [if_neg (by decide)]
    simp only []
    rw [if_pos hver, if_pos hub, if_pos hmp]

/-- Witness for C8: `exact` truthy on version `1.2.3`, build
`h24524543_0`. -/
theorem claim_C8_pin_compatible_evaluation_witness :
    pyTruthy "True" = true ∧
      _apply_pin_compatible "1.2.3" "h24524543_0" "" "" "x.x.x.x.x.x" "x" "True" =
        some (.ok "1.2.3 h24524543_0") :=
  ⟨by decide, claim_C8_pin_compatible_evaluation.1 "1.2.3" "h24524543_0" "True"
    "" "" "x.x.x.x.x.x" "x" (by decide) (by decide) (by decide)
    (by decide) (by decide)⟩

/-- C9: a requirement that is a pin expression whose named dependency is
absent from the host lookup (or present with no version) raises in strict
mode, and in lenient mode (the default) falls back to the unconstrained
requirement `"name * build"` when a build string is attached and the bare
name otherwise; requirements without a pin expression pass through
unchanged. -/
theorem claim_C9_pin_missing_fallback :
    (∀ (host_reqs : List String) (strict : Bool) (req : String),
      pyContains (pystr "pin_compatible(") (pystr req) = false →
      replacePinOne host_reqs strict req = some (.ok req)) ∧
    (∀ (host_reqs : List String) (req : String),
      pyContains (pystr "pin_compatible(") (pystr req) = true →
      pyStartswith (pystr "pin_compatible(") (pystr req) = true →
      (hostLookupGet host_reqs (pinReqName req) = none ∨
        hostLookupGet host_reqs (pinReqName req) = some []) →
      (∃ e, replacePinOne host_reqs true req = some (.error e)) ∧
        replacePinOne host_reqs false req =
          some (.ok (if pinReqBuild req ≠ "" then
              pinReqName req ++ " * " ++ pinReqBuild req
            else pinReqName req))) := by
  constructor
  · intro host_reqs strict req h
    unfold replacePinOne
    rw [if_neg (by simp [h])]
  · intro host_reqs req hcont hstart hmiss
    have hopen : ∀ strict : Bool, ∀ res : Option (Except String String),
        (match hostLookupGet host_reqs (pinReqName req) with
          | none =>
            if strict then
              some (Except.error ("Very odd pinning: " ++ req ++ "! Package " ++
                pinReqName req ++ " not found in host!"))
            else if pinReqBuild req ≠ "" then
              some (Except.ok (pinReqName req ++ " * " ++ pinReqBuild req))
            else
              some (Except.ok (pinReqName req))
          | some [] =>
            if strict then
              some (Except.error ("Very odd pinning: " ++ req ++
                "! Package found in host but no version!"))
            else if pinReqBuild req ≠ "" then
              some (Except.ok (pinReqName req ++ " * " ++ pinReqBuild req))
            else
              some (Except.ok (pinReqName req))
          | some (_ :: _) => res) = res →
        replacePinOne host_reqs strict req = res := by
      intro strict res hres
      unfold replacePinOne
      rw [if_pos hcont, if_neg (by simp [hstart])]
      dsimp only
      rcases hmiss with hlk | hlk <;> rw [hlk] <;> rw [hlk] at hres <;>
        dsimp only at hres ⊢ <;> exact hres
    rcases hmiss with hlk | hlk
    · constructor
      · refine ⟨"Very odd pinning: " ++ req ++ "! Package " ++ pinReqName req ++
          " not found in host!", hopen true _ ?_⟩
        rw [hlk]
        rfl
      · apply hopen false
        rw [hlk]
        dsimp only
        by_cases hb : pinReqBuild req ≠ ""
        · rw [if_neg (by decide : ¬(false = true)), if_pos hb, if_pos hb]
        · rw [if_neg (by decide : ¬(false = true)), if_neg hb, if_neg hb]
    · constructor
      · refine ⟨"Very odd pinning: " ++ req ++
          "! Package found in host but no version!", hopen true _ ?_⟩
        rw [hlk]
        rfl
      · apply hopen false
        rw [hlk]
        dsimp only
        by_cases hb : pinReqBuild req ≠ ""
        · rw [if_neg (by decide : ¬(false = true)), if_pos hb, if_pos hb]
        · rw [if_neg (by decide : ¬(false = true)), if_neg hb, if_neg hb]

/-- Witness for C9 at the concrete pin `pin_compatible("nope") h1` against
a host list that only carries `foo`. -/
theorem claim_C9_pin_missing_fallback_witness :
    pyContains (pystr "pin_compatible(") (pystr "pin_compatible(\"nope\") h1") = true ∧
    hostLookupGet ["foo 1.2.3 5"] (pinReqName "pin_compatible(\"nope\") h1") = none ∧
    ((∃ e, replacePinOne ["foo 1.2.3 5"] true "pin_compatible(\"nope\") h1" =
        some (.error e)) ∧
      replacePinOne ["foo 1.2.3 5"] false "pin_compatible(\"nope\") h1" =
        some (.ok (if pinReqBuild "pin_compatible(\"nope\") h1" ≠ "" then
            pinReqName "pin_compatible(\"nope\") h1" ++ " * " ++
              pinReqBuild "pin_compatible(\"nope\") h1"
          else pinReqName "pin_compatible(\"nope\") h1"))) :=
  ⟨by decide, by decide,
    claim_C9_pin_missing_fallback.2 ["foo 1.2.3 5"] "pin_compatible(\"nope\") h1"
      (by decide) (by decide) (Or.inl (by decide))⟩

theorem list_map_comp_const {α β γ : Type} (l : List α) (f : α → β) (g : β → γ)
    (c : γ) (h : ∀ x, g (f x) = c) : (l.map f).map g = List.replicate l.length c := by
  induction l with
  | nil => rfl
  | cons x xs ih =>
    simp only [List.map_cons, List.length_cons, List.replicate_succ, h x, ih]

theorem virtual_package_repodata_names (cuda_live : List String) :
    (virtual_package_repodata cuda_live).map (fun e => e.1.name) =
      List.replicate (List.range' 12 (MAX_GLIBC_MINOR + 1 - 12)).length "__glibc" ++
      List.replicate ((cuda_live ++ MINIMUM_CUDA_VERS).dedup).length "__cuda" ++
      List.replicate MINIMUM_OSX_64_VERS.length "__osx" ++
      List.replicate MINIMUM_OSX_ARM64_VERS.length "__osx" ++
      ["__win", "__linux", "__unix"] := by
  unfold virtual_package_repodata
  simp only [List.map_append]
  rw [list_map_comp_const _ _ _ "__glibc" (fun x => rfl),
    list_map_comp_const _ _ _ "__cuda" (fun x => rfl),
    list_map_comp_const _ _ _ "__osx" (fun x => rfl),
    list_map_comp_const _ _ _ "__osx" (fun x => rfl)]
  rfl

/-- Counterexample to C10 as stated: the `FakeRepoData` virtual package
registry (`virtual_packages.py`, used by the mamba backend and by
`check_solvable.py`) contains no `__archspec` package at all. -/
theorem claim_C10_counterexample :
    "__archspec" ∉ (virtual_package_repodata []).map (fun e => e.1.name) := by
  intro h
  rw [virtual_package_repodata_names] at h
  simp [List.mem_replicate] at h

set_option maxRecDepth 4096 in
/-- C10 (amended): the rattler backend registry
(`virtual_packages_repodata`) contains an `__archspec` entry for each of
the ten fixed architectures and carries `__glibc`, `__cuda`, `__osx`,
`__win`, `__unix`, `__linux`; the `FakeRepoData` registry
(`virtual_package_repodata`), however, provides exactly the names
`__glibc`, `__cuda`, `__osx`, `__win`, `__linux`, `__unix` — no
`__archspec`. -/
theorem claim_C10_virtual_packages (cuda_live : List String) :
    (∀ a ∈ archspecArches,
      (⟨"__archspec", "1", a⟩ : GenericVirtualPackage) ∈
        virtual_packages_repodata cuda_live) ∧
    (∀ n ∈ ["__glibc", "__cuda", "__osx", "__win", "__unix", "__linux"],
      ∃ p ∈ virtual_packages_repodata cuda_live, p.name = n) ∧
    ((virtual_package_repodata cuda_live).map (fun e => e.1.name)).toFinset =
      {"__glibc", "__cuda", "__osx", "__win", "__linux", "__unix"} := by
  refine ⟨?_, ?_, ?_⟩
  · intro a ha
    unfold virtual_packages_repodata
    exact List.mem_append_left _ (List.mem_append_right _ (List.mem_map_of_mem _ ha))
  · intro n hn
    unfold virtual_packages_repodata
    rcases (by simpa using hn :
        n = "__glibc" ∨ n = "__cuda" ∨ n = "__osx" ∨ n = "__win" ∨
          n = "__unix" ∨ n = "__linux") with rfl | rfl | rfl | rfl | rfl | rfl
    · exact ⟨⟨"__glibc", "2." ++ toString 12, "0"⟩,
        List.mem_append_left _ (List.mem_append_left _ (List.mem_append_left _
          (List.mem_append_left _ (List.mem_append_left _
            (List.mem_map_of_mem _ (by decide)))))), rfl⟩
    · refine ⟨⟨"__cuda", "9.2", "0"⟩, ?_, rfl⟩
      have h92 : "9.2" ∈ (cuda_live ++ RATTLER_MINIMUM_CUDA_VERS).dedup :=
        List.mem_dedup.mpr (List.mem_append_right _ (by decide))
      exact List.mem_append_left _ (List.mem_append_left _ (List.mem_append_left _
        (List.mem_append_left _ (List.mem_append_right _
          (List.mem_map_of_mem _ h92)))))
    · exact ⟨⟨"__osx", "10.9", "0"⟩,
        List.mem_append_left _ (List.mem_append_left _ (List.mem_append_left _
          (List.mem_append_right _ (List.mem_map_of_mem _ (by decide))))), rfl⟩
    · exact ⟨⟨"__win", "0", "0"⟩,
        List.mem_append_right _ (List.mem_map_of_mem _ (by decide)), rfl⟩
    · exact ⟨⟨"__unix", "0", "0"⟩,
        List.mem_append_right _ (List.mem_map_of_mem _ (by decide)), rfl⟩
    · exact ⟨⟨"__linux", "0", "0"⟩,
        List.mem_append_right _ (List.mem_map_of_mem _ (by decide)), rfl⟩
  · have hc : ((cuda_live ++ MINIMUM_CUDA_VERS).dedup).length ≠ 0 := by
      simp only [ne_eq, List.length_eq_zero, List.dedup_eq_nil, List.append_eq_nil,
        not_and]
      intro h1 h2
      exact absurd h2 (by decide)
    rw [virtual_package_repodata_names]
    rw [List.toFinset_append, List.toFinset_append, List.toFinset_append,
      List.toFinset_append]
    rw [List.toFinset_replicate_of_ne_zero (by decide),
      List.toFinset_replicate_of_ne_zero hc,
      List.toFinset_replicate_of_ne_zero (by decide),
      List.toFinset_replicate_of_ne_zero (by decide)]
    decide

/-- Witness for C10 (amended) at architecture `x86` with an empty live
CUDA query. -/
theorem claim_C10_virtual_packages_witness :
    (⟨"__archspec", "1", "x86"⟩ : GenericVirtualPackage) ∈
      virtual_packages_repodata [] :=
  (claim_C10_virtual_packages []).1 "x86" (by decide)

theorem mergeBuildRx_ctrl (m : OutputMeta) (brx : RunExports) (st : PipelineState) :
    (mergeBuildRx m brx st).solvable = st.solvable ∧
    (mergeBuildRx m brx st).errors = st.errors ∧
    (mergeBuildRx m brx st).trace = st.trace := by
  unfold mergeBuildRx
  dsimp only
  split_ifs <;> exact ⟨rfl, rfl, rfl⟩

theorem mergeHostRx_ctrl (m : OutputMeta) (hrx : RunExports) (st : PipelineState) :
    (mergeHostRx m hrx st).solvable = st.solvable ∧
    (mergeHostRx m hrx st).errors = st.errors ∧
    (mergeHostRx m hrx st).trace = st.trace := by
  unfold mergeHostRx
  dsimp only
  split_ifs <;> exact ⟨rfl, rfl, rfl⟩

theorem stAppends_nil (o : SolveOracle) (st : PipelineState) :
    StAppends o st st [] := by
  refine ⟨by simp, by simp, by simp, by simp⟩

theorem stAppends_trans {o : SolveOracle} {st1 st2 st3 : PipelineState}
    {n1 n2 : List StageCall} (h1 : StAppends o st1 st2 n1)
    (h2 : StAppends o st2 st3 n2) : StAppends o st1 st3 (n1 ++ n2) := by
  obtain ⟨t1, s1, e1, w1⟩ := h1
  obtain ⟨t2, s2, e2, w2⟩ := h2
  refine ⟨?_, ?_, ?_, ?_⟩
  · rw [t2, t1, List.append_assoc]
  · rw [s2, s1, List.all_append, Bool.and_assoc]
  · rw [e2, e1, List.filterMap_append, List.append_assoc]
  · intro c hc
    rcases List.mem_append.mp hc with h | h
    · exact w1 c h
    · exact w2 c h

theorem all_singleton (c : StageCall) (p : StageCall → Bool) :
    ([c].all p) = p c := by simp

theorem filterMap_err_singleton (c : StageCall) :
    ([c].filterMap (fun c => c.outcome.err)) = c.outcome.err.toList := by
  cases h : c.outcome.err <;> simp [List.filterMap, h]

theorem buildStage_appends (o : SolveOracle) (outnames : List String)
    (m : OutputMeta) (st : PipelineState) :
    ∃ new, StAppends o st (buildStage o outnames m st) new ∧
      new.map (fun c => c.stage) =
        (if st.build_req ≠ ∅ then [Stage.build] else []) := by
  by_cases h : st.build_req ≠ ∅
  · rw [buildStage, if_pos h]
    refine ⟨[⟨Stage.build, true, true, m.ignore_run_exports_from,
      m.ignore_run_exports, remove_reqs_by_name st.build_req outnames, ∅,
      o.solve true true m.ignore_run_exports_from m.ignore_run_exports
        (remove_reqs_by_name st.build_req outnames) ∅⟩], ?_, by rw [if_pos h]; rfl⟩
    obtain ⟨hs, he, ht⟩ := mergeBuildRx_ctrl m _ _
    refine ⟨?_, ?_, ?_, ?_⟩
    · rw [ht]
    · rw [hs, all_singleton]
    · rw [he, filterMap_err_singleton]
    · intro c hc
      rw [List.mem_singleton] at hc
      subst hc
      rfl
  · rw [buildStage, if_neg h]
    exact ⟨[], stAppends_nil o st, by rw [if_neg h]; rfl⟩

theorem hostStage_appends (o : SolveOracle) (outnames : List String)
    (m : OutputMeta) (st : PipelineState) :
    ∃ new, StAppends o st (hostStage o outnames m st) new ∧
      new.map (fun c => c.stage) =
        (if st.host_req ≠ ∅ then [Stage.host] else []) := by
  by_cases h : st.host_req ≠ ∅
  · rw [hostStage, if_pos h]
    refine ⟨[⟨Stage.host, false, true, m.ignore_run_exports_from,
      m.ignore_run_exports, remove_reqs_by_name st.host_req outnames, ∅,
      o.solve false true m.ignore_run_exports_from m.ignore_run_exports
        (remove_reqs_by_name st.host_req outnames) ∅⟩], ?_, by rw [if_pos h]; rfl⟩
    obtain ⟨hs, he, ht⟩ := mergeHostRx_ctrl m _ _
    refine ⟨?_, ?_, ?_, ?_⟩
    · rw [ht]
    · rw [hs, all_singleton]
    · rw [he, filterMap_err_singleton]
    · intro c hc
      rw [List.mem_singleton] at hc
      subst hc
      rfl
  · rw [hostStage, if_neg h]
    exact ⟨[], stAppends_nil o st, by rw [if_neg h]; rfl⟩

theorem runStage_appends (o : SolveOracle) (gp : GetPin)
    (outnames : List String) (m : OutputMeta) (st : PipelineState) :
    ∃ new, StAppends o st (runStage o gp outnames m st) new ∧
      new.map (fun c => c.stage) =
        (if st.run_req ≠ ∅ then [Stage.run] else []) := by
  rw [runStage]
  dsimp only
  by_cases h : st.run_req ≠ ∅
  · rw [if_pos h]
    refine ⟨[⟨Stage.run, false, false, [], [],
      remove_reqs_by_name
        (apply_pins gp st.run_req st.host_solution st.build_solution outnames
          m.is_cross) outnames,
      apply_pins gp st.run_constrained st.host_solution st.build_solution
        outnames m.is_cross,
      o.solve false false [] []
        (remove_reqs_by_name
          (apply_pins gp st.run_req st.host_solution st.build_solution outnames
            m.is_cross) outnames)
        (apply_pins gp st.run_constrained st.host_solution st.build_solution
          outnames m.is_cross)⟩], ?_, by rw [if_pos h]; rfl⟩
    refine ⟨rfl, ?_, ?_, ?_⟩
    · rw [all_singleton]
    · rw [filterMap_err_singleton]
    · intro c hc
      rw [List.mem_singleton] at hc
      subst hc
      rfl
  · rw [if_neg h]
    exact ⟨[], ⟨by simp, by simp, by simp, by simp⟩, by rw [if_neg h]; rfl⟩

theorem testStage_appends (o : SolveOracle) (outnames : List String)
    (m : OutputMeta) (st : PipelineState) :
    ∃ new, StAppends o st (testStage o outnames m st) new ∧
      new.map (fun c => c.stage) =
        (if m.test_requires.toFinset ∪ m.test_requirements.toFinset ∪ st.run_req ≠ ∅
          then [Stage.test] else []) := by
  rw [testStage]
  dsimp only
  by_cases h : m.test_requires.toFinset ∪ m.test_requirements.toFinset ∪ st.run_req ≠ ∅
  · rw [if_pos h]
    refine ⟨[⟨Stage.test, false, false, [], [],
      remove_reqs_by_name
        (m.test_requires.toFinset ∪ m.test_requirements.toFinset ∪ st.run_req)
        outnames,
      st.run_constrained,
      o.solve false false [] []
        (remove_reqs_by_name
          (m.test_requires.toFinset ∪ m.test_requirements.toFinset ∪ st.run_req)
          outnames)
        st.run_constrained⟩], ?_, by rw [if_pos h]; rfl⟩
    refine ⟨rfl, ?_, ?_, ?_⟩
    · rw [all_singleton]
    · rw [filterMap_err_singleton]
    · intro c hc
      rw [List.mem_singleton] at hc
      subst hc
      rfl
  · rw [if_neg h]
    exact ⟨[], stAppends_nil o st, by rw [if_neg h]; rfl⟩

theorem checkOutput_spec (o : SolveOracle) (gp : GetPin)
    (outnames : List String) (m : OutputMeta) :
    (checkOutput o gp outnames m).solvable =
      ((checkOutput o gp outnames m).trace).all (fun c => c.outcome.ok) ∧
    (checkOutput o gp outnames m).errors =
      ((checkOutput o gp outnames m).trace).filterMap (fun c => c.outcome.err) ∧
    (∀ c ∈ (checkOutput o gp outnames m).trace,
      c.outcome = o.solve c.buildPlatform c.getRunExports c.ignoreFrom c.ignore
        c.specs c.constraints) ∧
    ((checkOutput o gp outnames m).trace).map (fun c => c.stage) =
      (if m.build_req.toFinset ≠ ∅ then [Stage.build] else []) ++
      (if (buildStage o outnames m (initState m)).host_req ≠ ∅ then [Stage.host]
        else []) ++
      (if (hostStage o outnames m
          (buildStage o outnames m (initState m))).run_req ≠ ∅ then [Stage.run]
        else []) ++
      (if m.test_requires.toFinset ∪ m.test_requirements.toFinset ∪
          (runStage o gp outnames m (hostStage o outnames m
            (buildStage o outnames m (initState m)))).run_req ≠ ∅
        then [Stage.test] else []) := by
  obtain ⟨n1, h1, hm1⟩ := buildStage_appends o outnames m (initState m)
  obtain ⟨n2, h2, hm2⟩ :=
    hostStage_appends o outnames m (buildStage o outnames m (initState m))
  obtain ⟨n3, h3, hm3⟩ := runStage_appends o gp outnames m
    (hostStage o outnames m (buildStage o outnames m (initState m)))
  obtain ⟨n4, h4, hm4⟩ := testStage_appends o outnames m
    (runStage o gp outnames m (hostStage o outnames m
      (buildStage o outnames m (initState m))))
  have hall : StAppends o (initState m) (checkOutput o gp outnames m)
      (n1 ++ (n2 ++ (n3 ++ n4))) :=
    stAppends_trans h1 (stAppends_trans h2 (stAppends_trans h3 h4))
  obtain ⟨ht, hs, he, hw⟩ := hall
  have htr : (checkOutput o gp outnames m).trace = n1 ++ (n2 ++ (n3 ++ n4)) := by
    rw [ht]
    rfl
  refine ⟨?_, ?_, ?_, ?_⟩
  · rw [hs, htr]
    rfl
  · rw [he, htr]
    rfl
  · intro c hc
    exact hw c (by rw [← htr]; exact hc)
  · rw [htr]
    simp only [List.map_append]
    rw [hm1, hm2, hm3, hm4]
    have hinit : (initState m).build_req = m.build_req.toFinset := rfl
    rw [hinit]
    simp [List.append_assoc]

theorem list_all_flatMap {α β : Type} (l : List α) (f : α → List β)
    (p : β → Bool) : ((l.flatMap f).all p) = l.all (fun x => (f x).all p) := by
  induction l with
  | nil => rfl
  | cons x xs ih => simp [List.flatMap_cons, List.all_append, ih]

theorem list_filterMap_flatMap {α β γ : Type} (l : List α) (f : α → List β)
    (g : β → Option γ) :
    ((l.flatMap f).filterMap g) = l.flatMap (fun x => (f x).filterMap g) := by
  induction l with
  | nil => rfl
  | cons x xs ih => simp [List.flatMap_cons, List.filterMap_append, ih]

theorem on_platform_fold (o : SolveOracle) (gp : GetPin)
    (outnames : List String) :
    ∀ (ms : List OutputMeta) (acc : Bool × List String × List StageCall),
      (ms.foldl (fun acc m =>
        let st := checkOutput o gp outnames m
        (acc.1 && st.solvable, acc.2.1 ++ st.errors, acc.2.2 ++ st.trace)) acc) =
      (acc.1 && ms.all (fun m => (checkOutput o gp outnames m).solvable),
        acc.2.1 ++ ms.flatMap (fun m => (checkOutput o gp outnames m).errors),
        acc.2.2 ++ ms.flatMap (fun m => (checkOutput o gp outnames m).trace)) := by
  intro ms
  induction ms with
  | nil => intro acc; simp
  | cons m ms ih =>
    intro acc
    rw [List.foldl_cons]
    rw [ih]
    simp [Bool.and_assoc, List.flatMap_cons, List.append_assoc]

theorem list_all_congr {α : Type} {l : List α} {f g : α → Bool}
    (h : ∀ x ∈ l, f x = g x) : l.all f = l.all g := by
  induction l with
  | nil => rfl
  | cons x xs ih =>
    simp only [List.all_cons]
    rw [h x (List.mem_cons_self x xs), ih (fun y hy => h y (List.mem_cons_of_mem x hy))]

theorem on_platform_spec (o : SolveOracle) (gp : GetPin)
    (metas : List OutputMeta) :
    (_is_recipe_solvable_on_platform o gp metas).1 =
      ((_is_recipe_solvable_on_platform o gp metas).2.2).all
        (fun c => c.outcome.ok) ∧
    (_is_recipe_solvable_on_platform o gp metas).2.1 =
      ((_is_recipe_solvable_on_platform o gp metas).2.2).filterMap
        (fun c => c.outcome.err) ∧
    (_is_recipe_solvable_on_platform o gp metas).2.2 =
      metas.flatMap (fun m =>
        (checkOutput o gp (metas.map OutputMeta.name) m).trace) ∧
    (∀ c ∈ (_is_recipe_solvable_on_platform o gp metas).2.2,
      c.outcome = o.solve c.buildPlatform c.getRunExports c.ignoreFrom c.ignore
        c.specs c.constraints) := by
  have hfold := on_platform_fold o gp (metas.map OutputMeta.name) metas
    (true, [], [])
  have hres : _is_recipe_solvable_on_platform o gp metas =
      (metas.all (fun m =>
        (checkOutput o gp (metas.map OutputMeta.name) m).solvable),
      metas.flatMap (fun m =>
        (checkOutput o gp (metas.map OutputMeta.name) m).errors),
      metas.flatMap (fun m =>
        (checkOutput o gp (metas.map OutputMeta.name) m).trace)) := by
    unfold _is_recipe_solvable_on_platform
    rw [hfold]
    simp
  rw [hres]
  refine ⟨?_, ?_, rfl, ?_⟩
  · rw [list_all_flatMap]
    apply list_all_congr
    intro m hm
    exact (checkOutput_spec o gp (metas.map OutputMeta.name) m).1
  · rw [list_filterMap_flatMap]
    apply List.flatMap_congr
    intro m hm
    exact (checkOutput_spec o gp (metas.map OutputMeta.name) m).2.1
  · intro c hc
    rcases List.mem_flatMap.mp hc with ⟨m, hm, hcm⟩
    exact (checkOutput_spec o gp (metas.map OutputMeta.name) m).2.2.1 c hcm

theorem solvableLoop_no_timeout (oracle : String → SolveOracle) (gp : GetPin)
    (tA : Nat → Bool) :
    ∀ (vs : List VariantData) (i : Nat) (s : Bool) (e : List String)
      (b : List (String × Bool)),
      (solvableLoop oracle gp false tA i vs s e b).1 =
        (s && vs.all (fun v =>
          (_is_recipe_solvable_on_platform (oracle v.cbc_name) gp v.metas).1)) := by
  intro vs
  induction vs with
  | nil =>
    intro i s e b
    simp [solvableLoop]
  | cons v vs ih =>
    intro i s e b
    simp only [solvableLoop, Bool.false_and, Bool.false_eq_true, if_false]
    rw [ih]
    simp [Bool.and_assoc]

theorem solvableLoop_timeout (oracle : String → SolveOracle) (gp : GetPin)
    (tA : Nat → Bool) :
    ∀ (vs : List VariantData) (i : Nat) (s : Bool) (e : List String)
      (b : List (String × Bool)),
      (∃ j, j < vs.length ∧ tA (i + j) = true) →
      solvableLoop oracle gp true tA i vs s e b = (true, [], []) := by
  intro vs
  induction vs with
  | nil =>
    intro i s e b h
    obtain ⟨j, hj, -⟩ := h
    exact absurd hj (by simp)
  | cons v vs ih =>
    intro i s e b h
    obtain ⟨j, hj, hta⟩ := h
    by_cases h0 : tA i = true
    · simp only [solvableLoop]
      rw [if_pos (by simp [h0])]
    · have hjne : j ≠ 0 := by
        rintro rfl
        exact h0 (by simpa using hta)
      obtain ⟨jj, rfl⟩ := Nat.exists_eq_succ_of_ne_zero hjne
      simp only [solvableLoop]
      rw [if_neg (by simp [h0])]
      apply ih
      refine ⟨jj, by simpa using hj, ?_⟩
      rw [show i + 1 + jj = i + jj.succ by omega]
      exact hta

theorem list_filterMap_congr {α β : Type} {l : List α} {f g : α → Option β}
    (h : ∀ x ∈ l, f x = g x) : l.filterMap f = l.filterMap g := by
  induction l with
  | nil => rfl
  | cons x xs ih =>
    simp only [List.filterMap_cons]
    rw [h x (List.mem_cons_self x xs), ih (fun y hy => h y (List.mem_cons_of_mem x hy))]

/-- Claim C2: for every recipe output and every combination of solve
outcomes at the four stages, a failed solve sets solvability to false and
appends that stage's explanation to the error list but does not prevent
later stages from executing — each stage still runs exactly when its
requirement set is non-empty — and the per-feedstock solvable flag equals
the logical AND of all per-stage solve results across all outputs and all
variant configs.  Conjuncts: (a) the per-variant solvable flag is the AND
of `outcome.ok` over every recorded stage call; (b) the error list is the
concatenation of the explanations the backend attached to the calls;
(c) when the backend produces an explanation exactly on failure, the error
list is exactly the failed stages' explanations; (d) the trace is the
concatenation of the per-output traces; (e) per output, each of build,
host, run, test is invoked exactly when its requirement set at that point
is non-empty, regardless of earlier outcomes; (f) at the feedstock level
(no timeout, `meta.yaml` present, some variants) the returned flag is the
AND over variants of the AND of their stage results. -/
theorem claim_C2_stage_pipeline (o : SolveOracle) (gp : GetPin)
    (metas : List OutputMeta) :
    (_is_recipe_solvable_on_platform o gp metas).1 =
      ((_is_recipe_solvable_on_platform o gp metas).2.2).all
        (fun c => c.outcome.ok) ∧
    (_is_recipe_solvable_on_platform o gp metas).2.1 =
      ((_is_recipe_solvable_on_platform o gp metas).2.2).filterMap
        (fun c => c.outcome.err) ∧
    ((∀ bp gre ignf ign sp cs,
        ((o.solve bp gre ignf ign sp cs).err).isSome =
          !(o.solve bp gre ignf ign sp cs).ok) →
      (_is_recipe_solvable_on_platform o gp metas).2.1 =
        ((_is_recipe_solvable_on_platform o gp metas).2.2).filterMap
          (fun c => if c.outcome.ok then none else c.outcome.err)) ∧
    (_is_recipe_solvable_on_platform o gp metas).2.2 =
      metas.flatMap (fun m =>
        (checkOutput o gp (metas.map OutputMeta.name) m).trace) ∧
    (∀ m, ((checkOutput o gp (metas.map OutputMeta.name) m).trace).map
        (fun c => c.stage) =
      (if m.build_req.toFinset ≠ ∅ then [Stage.build] else []) ++
      (if (buildStage o (metas.map OutputMeta.name) m (initState m)).host_req ≠ ∅
        then [Stage.host] else []) ++
      (if (hostStage o (metas.map OutputMeta.name) m
          (buildStage o (metas.map OutputMeta.name) m (initState m))).run_req ≠ ∅
        then [Stage.run] else []) ++
      (if m.test_requires.toFinset ∪ m.test_requirements.toFinset ∪
          (runStage o gp (metas.map OutputMeta.name) m
            (hostStage o (metas.map OutputMeta.name) m
              (buildStage o (metas.map OutputMeta.name) m
                (initState m)))).run_req ≠ ∅
        then [Stage.test] else [])) ∧
    (∀ (oracle : String → SolveOracle) (variants : List VariantData),
      variants ≠ [] →
      (_is_recipe_solvable oracle gp variants true false (fun _ => false)).1 =
        variants.all (fun v =>
          ((_is_recipe_solvable_on_platform (oracle v.cbc_name) gp
            v.metas).2.2).all (fun c => c.outcome.ok))) := by
  obtain ⟨h1, h2, h3, h4⟩ := on_platform_spec o gp metas
  refine ⟨h1, h2, ?_, h3, ?_, ?_⟩
  · intro hWF
    rw [h2]
    apply list_filterMap_congr
    intro c hc
    have hco := h4 c hc
    have hs : c.outcome.err.isSome = !c.outcome.ok := by
      rw [hco]
      exact hWF c.buildPlatform c.getRunExports c.ignoreFrom c.ignore c.specs
        c.constraints
    cases hok : c.outcome.ok with
    | false => simp [hok]
    | true =>
      have hfalse : c.outcome.err.isSome = false := by rw [hs, hok]; rfl
      have hnone : c.outcome.err = none :=
        Option.not_isSome_iff_eq_none.mp (by simp [hfalse])
      simp [hnone, hok]
  · intro m
    exact (checkOutput_spec o gp (metas.map OutputMeta.name) m).2.2.2
  · intro oracle variants hne
    have hie : variants.isEmpty = false := by
      cases variants with
      | nil => exact absurd rfl hne
      | cons a l => rfl
    unfold _is_recipe_solvable
    rw [if_neg (by simp [hie])]
    rw [if_neg (by simp)]
    rw [solvableLoop_no_timeout oracle gp (fun _ => false) variants 0 true [] []]
    rw [Bool.true_and]
    apply list_all_congr
    intro v hv
    exact (on_platform_spec (oracle v.cbc_name) gp v.metas).1

theorem claim_C2_stage_pipeline_witness :
    (_is_recipe_solvable_on_platform demoOracle demoGetPin [demoMeta]).2.1 =
      ((_is_recipe_solvable_on_platform demoOracle demoGetPin
        [demoMeta]).2.2).filterMap
        (fun c => if c.outcome.ok then none else c.outcome.err) ∧
    (_is_recipe_solvable (fun _ => demoOracle) demoGetPin
        [⟨"linux64", [demoMeta]⟩] true false (fun _ => false)).1 =
      ([⟨"linux64", [demoMeta]⟩] : List VariantData).all (fun v =>
        ((_is_recipe_solvable_on_platform demoOracle demoGetPin
          v.metas).2.2).all (fun c => c.outcome.ok)) :=
  ⟨(claim_C2_stage_pipeline demoOracle demoGetPin [demoMeta]).2.2.1
      (fun _ _ _ _ _ _ => rfl),
    (claim_C2_stage_pipeline demoOracle demoGetPin [demoMeta]).2.2.2.2.2
      (fun _ => demoOracle) [⟨"linux64", [demoMeta]⟩] (List.cons_ne_nil _ _)⟩

/-- Claim C1: the verdicts of `is_recipe_solvable`.  (1) With zero
`.ci_support/*.yaml` files (and a worker, if any, that completes) the
result is `(False, [NO_CI_SUPPORT_MSG], {})`; (2) with variants but no
`recipe/meta.yaml` it is `(False, [NO_META_YAML_MSG], {})`; (3) when the
worker-process timeout elapses the result is `(True, [], {})` regardless
of the recipe; (4) on the inline path, when the wall clock runs out before
some variant is checked, the result is likewise `(True, [], {})`. -/
theorem claim_C1_driver_verdicts (oracle : String → SolveOracle) (gp : GetPin)
    (variants : List VariantData) (metaYamlExists : Bool)
    (timeoutEnabled solverKnown : Bool) (fate : WorkerFate) (tA : Nat → Bool) :
    (variants = [] →
      ((timeoutEnabled && solverKnown) = true → fate = WorkerFate.completed) →
      is_recipe_solvable oracle gp variants metaYamlExists timeoutEnabled
        solverKnown fate tA = (false, [NO_CI_SUPPORT_MSG], [])) ∧
    (variants ≠ [] → metaYamlExists = false →
      ((timeoutEnabled && solverKnown) = true → fate = WorkerFate.completed) →
      is_recipe_solvable oracle gp variants metaYamlExists timeoutEnabled
        solverKnown fate tA = (false, [NO_META_YAML_MSG], [])) ∧
    ((timeoutEnabled && solverKnown) = true → fate = WorkerFate.timedOut →
      is_recipe_solvable oracle gp variants metaYamlExists timeoutEnabled
        solverKnown fate tA = (true, [], [])) ∧
    ((timeoutEnabled && solverKnown) = false → timeoutEnabled = true →
      variants ≠ [] → metaYamlExists = true →
      (∃ j, j < variants.length ∧ tA j = true) →
      is_recipe_solvable oracle gp variants metaYamlExists timeoutEnabled
        solverKnown fate tA = (true, [], [])) := by
  refine ⟨?_, ?_, ?_, ?_⟩
  · intro hv hf
    subst hv
    unfold is_recipe_solvable
    by_cases hts : (timeoutEnabled && solverKnown) = true
    · rw [if_pos hts, hf hts]
      rfl
    · rw [if_neg hts]
      rfl
  · intro hne hmy hf
    have hie : variants.isEmpty = false := by
      cases variants with
      | nil => exact absurd rfl hne
      | cons a l => rfl
    have hinner : ∀ (te : Bool) (f : Nat → Bool),
        _is_recipe_solvable oracle gp variants metaYamlExists te f =
          (false, [NO_META_YAML_MSG], []) := by
      intro te f
      unfold _is_recipe_solvable
      rw [if_neg (by simp [hie]), hmy]
      rfl
    unfold is_recipe_solvable
    by_cases hts : (timeoutEnabled && solverKnown) = true
    · rw [if_pos hts, hf hts]
      exact hinner false (fun _ => false)
    · rw [if_neg hts]
      exact hinner timeoutEnabled tA
  · intro hts hf
    unfold is_recipe_solvable
    rw [if_pos hts, hf]
  · intro hts hte hne hmy hj
    have hie : variants.isEmpty = false := by
      cases variants with
      | nil => exact absurd rfl hne
      | cons a l => rfl
    unfold is_recipe_solvable
    rw [if_neg (by simp [hts])]
    unfold _is_recipe_solvable
    rw [if_neg (by simp [hie]), hmy, if_neg (by simp)]
    subst hte
    obtain ⟨j, hjl, hja⟩ := hj
    exact solvableLoop_timeout oracle gp tA variants 0 true [] []
      ⟨j, hjl, by rw [Nat.zero_add]; exact hja⟩

theorem claim_C1_driver_verdicts_witness :
    is_recipe_solvable (fun _ => demoOracle) demoGetPin [] true true true
      WorkerFate.completed (fun _ => false) = (false, [NO_CI_SUPPORT_MSG], []) ∧
    is_recipe_solvable (fun _ => demoOracle) demoGetPin
      [⟨"linux64", [demoMeta]⟩] false true true WorkerFate.completed
      (fun _ => false) = (false, [NO_META_YAML_MSG], []) ∧
    is_recipe_solvable (fun _ => demoOracle) demoGetPin
      [⟨"linux64", [demoMeta]⟩] true true true WorkerFate.timedOut
      (fun _ => false) = (true, [], []) ∧
    is_recipe_solvable (fun _ => demoOracle) demoGetPin
      [⟨"linux64", [demoMeta]⟩] true true false WorkerFate.completed
      (fun _ => true) = (true, [], []) :=
  ⟨(claim_C1_driver_verdicts (fun _ => demoOracle) demoGetPin [] true true true
      WorkerFate.completed (fun _ => false)).1 rfl (fun _ => rfl),
   (claim_C1_driver_verdicts (fun _ => demoOracle) demoGetPin
      [⟨"linux64", [demoMeta]⟩] false true true WorkerFate.completed
      (fun _ => false)).2.1 (List.cons_ne_nil _ _) rfl (fun _ => rfl),
   (claim_C1_driver_verdicts (fun _ => demoOracle) demoGetPin
      [⟨"linux64", [demoMeta]⟩] true true true WorkerFate.timedOut
      (fun _ => false)).2.2.1 rfl rfl,
   (claim_C1_driver_verdicts (fun _ => demoOracle) demoGetPin
      [⟨"linux64", [demoMeta]⟩] true true false WorkerFate.completed
      (fun _ => true)).2.2.2 rfl rfl (List.cons_ne_nil _ _) rfl
      ⟨0, by decide, rfl⟩⟩
